import Mathlib

/-!
Verification of the glacier-archiver engine (src/glacier-archiver.py).

The development is a shallow embedding of the Python source into Lean:

* the destination directory (archive parts, tracking files, manifest
  files, temporary files) is an explicit `FS` state record;
* `create_tar_part`, `process_archiving` (split here into `batchLoop`,
  `processFolder`, `processFolders`, `processArchiving`) and `main`
  are translated into pure state-passing functions over `FS`;
* Python strings compared with `<` / `>` are modelled by `charsLt` on
  the underlying character lists (Python compares strings
  lexicographically by code point, shorter prefixes first);
* exceptions raised during tar construction are modelled by an
  explicit failure oracle: `failAt = some k` means the k-th
  `tar.add` call raises, `none` means no call raises.  A raised and
  propagated exception is reported as `ok = false` in the result.

File mtimes (`st_mtime`) are modelled as naturals ordered like the
float timestamps; the engine only compares them.  An `FS` carries a
logical clock: each file append stamps the file with the current clock
and advances it, which models "the tracking file was written after the
source folder was last modified".
-/

namespace Glacier

/-- One source file: its path relative to the source root (the directory
containing the year/month levels, so the string already starts with
"year/month/") and its size in bytes (`f.stat().st_size`). -/
structure SrcFile where
  rel : String
  size : Nat
deriving DecidableEq, Repr

/-- One source month folder, as enumerated by
`source_root.glob('*/*')`: the names of the year and month directory
levels, the folder's `st_mtime`, and the regular files found below it
by `month_dir.rglob('*')`, in discovery order. -/
structure Folder where
  yearName : String
  monthName : String
  mtime : Nat
  files : List SrcFile
deriving DecidableEq, Repr

/-- A text file in the destination directory (tracking file or
manifest): its logical lines (the engine writes one line per
`write` call, each terminated by a newline) and its `st_mtime`. -/
structure TextFile where
  lines : List String
  mtime : Nat
deriving DecidableEq, Repr

/-- State of the destination directory.  `archives` are finalized
`.tar` parts (name with destination prefix, and the list of archive
member names); `texts` are the tracking and manifest text files;
`temps` are `.tar.tmp` leftovers; `dirs` are directories known to
exist; `clock` is the logical time used to stamp mtimes. -/
structure FS where
  texts : List (String × TextFile)
  archives : List (String × List String)
  temps : List String
  dirs : List String
  clock : Nat
deriving DecidableEq, Repr

/-- Configuration values read from the JSON config that the engine
uses: `max_size_gb`, `dest_dir` and `dry_run`. -/
structure Config where
  maxSizeGb : Nat
  destDir : String
  dryRun : Bool
deriving DecidableEq, Repr

/-- `max_bytes = config.get("max_size_gb", 100) * 1024**3`. -/
def Config.maxBytes (cfg : Config) : Nat := cfg.maxSizeGb * 1024 ^ 3

/-- Log lines the engine emits, restricted to the ones the claims talk
about. -/
inductive LogEvent where
  | dryRunPart (name : String) (count : Nat)
  | partSuccess (name : String)
  | critical
  | scanning (fid : String)
  | stopping
  | finished
  | configMissing
deriving DecidableEq, Repr

/-- Result of one `create_tar_part` call: the destination state, the
log lines emitted, and whether the call returned normally
(`ok = true`) or raised (`ok = false`). -/
structure WriteResult where
  fs : FS
  log : List LogEvent
  ok : Bool
deriving DecidableEq, Repr

/-- Result of processing one folder (or of running the per-folder batch
loop): state, log, the remaining failure oracle, and whether control
flow continues to the next folder (`ok = false` is the `except` branch
at the bottom of `process_archiving`, which `break`s). -/
structure StepResult where
  fs : FS
  log : List LogEvent
  fails : List (Option Nat)
  ok : Bool
deriving DecidableEq, Repr

/-- Result of a whole engine run. -/
structure RunResult where
  fs : FS
  log : List LogEvent
deriving DecidableEq, Repr

/-! ## Python string primitives -/

/-- Python string `<` on the underlying code-point lists: lexicographic,
a proper prefix is smaller. -/
def charsLt : List Char → List Char → Bool
  | _, [] => false
  | [], _ :: _ => true
  | a :: as, b :: bs => if a < b then true else if b < a then false else charsLt as bs

/-- Python `s < t` on strings. -/
def pyStrLt (s t : String) : Bool := charsLt s.data t.data

/-- Python `s.startswith(pre)`. -/
def strStartsWith (s pre : String) : Bool := pre.data.isPrefixOf s.data

/-- Python `s[:2]` (slicing by characters). -/
def strTake2 (s : String) : String := ⟨s.data.take 2⟩

/-- Python `Path(p).name`: the part of the path after the last slash. -/
def baseName (p : String) : String := ⟨(p.data.splitOn '/').getLastD []⟩

/-- The digit character for `d` (the engine's dates are rendered with
zero-padded decimal digits, `'0'` has code point 48). -/
def dChar (d : Nat) : Char := Char.ofNat (48 + d % 10)

/-- `strftime("%Y")` for a four-digit year: its zero-padded decimal
digits. -/
def fmtY (y : Nat) : String := ⟨[dChar (y / 1000), dChar (y / 100), dChar (y / 10), dChar y]⟩

/-- `strftime("%m")`: the zero-padded two-digit month. -/
def fmtM (m : Nat) : String := ⟨[dChar (m / 10), dChar m]⟩

/-- `strftime("%Y-%m")` of a (year, month) pair. -/
def fmtYM (ym : Nat × Nat) : String := fmtY ym.1 ++ "-" ++ fmtM ym.2

/-- `(datetime.now().replace(day=1) - timedelta(days=1))` is the last
day of the previous month; the engine only keeps its `%Y-%m` part, so
the model keeps the (year, month) of the previous month. -/
def lastMonth (today : Nat × Nat) : Nat × Nat :=
  if today.2 = 1 then (today.1 - 1, 12) else (today.1, today.2 - 1)

/-! ## Destination-state primitives -/

/-- Look a text file up by path. -/
def FS.lookupText (fs : FS) (p : String) : Option TextFile := fs.texts.lookup p

/-- The lines currently in text file `p` (empty when the file does not
exist). -/
def textLines (fs : FS) (p : String) : List String :=
  match fs.lookupText p with
  | some tf => tf.lines
  | none => []

/-- `open(p, "a")` followed by writing `ls` (one line per entry):
creates the file when missing, appends, and stamps the file's mtime
with the current clock. -/
def FS.appendText (fs : FS) (p : String) (ls : List String) : FS :=
  { fs with
    texts := (p, ⟨textLines fs p ++ ls, fs.clock⟩) :: fs.texts.filter (fun e => !(e.1 == p)),
    clock := fs.clock + 1 }

/-- `Path(d).mkdir(parents=True, exist_ok=True)`. -/
def FS.mkdir (fs : FS) (d : String) : FS :=
  if fs.dirs.contains d then fs else { fs with dirs := d :: fs.dirs }

/-- `tarfile.open(t, "w")`: creates (or truncates) the file `t`. -/
def FS.addTemp (fs : FS) (t : String) : FS :=
  if fs.temps.contains t then fs else { fs with temps := t :: fs.temps }

/-- `t.unlink()`, and the disappearance of `t` under `t.replace(...)`. -/
def FS.removeTemp (fs : FS) (t : String) : FS :=
  { fs with temps := fs.temps.erase t }

/-- The appearance of a finalized archive under `temp.replace(archive_path)`. -/
def FS.addArchive (fs : FS) (a : String × List String) : FS :=
  { fs with archives := fs.archives ++ [a] }

/-! ## Naming -/

/-- `folder_id = f"{month_dir.parent.name}-{month_dir.name}"` (line 130). -/
def Folder.fid (F : Folder) : String := F.yearName ++ "-" ++ F.monthName

/-- `dir_date = f"{month_dir.parent.name}-{month_dir.name[:2]}"` (line 140). -/
def Folder.dirDate (F : Folder) : String := F.yearName ++ "-" ++ strTake2 F.monthName

/-- `dest_root / f"{folder_id}.tracked.txt"` (line 131). -/
def trackedPath (cfg : Config) (fid : String) : String :=
  cfg.destDir ++ "/" ++ fid ++ ".tracked.txt"

/-- `dest_root / f"{folder_id}.contents.txt"` (line 132). -/
def manifestPath (cfg : Config) (fid : String) : String :=
  cfg.destDir ++ "/" ++ fid ++ ".contents.txt"

/-- `arc_name = f"{prefix}_{folder_id}.part{part_num}.tar"` (lines 171, 182). -/
def arcName (pfx fid : String) (n : Nat) : String :=
  pfx ++ "_" ++ fid ++ ".part" ++ toString n ++ ".tar"

/-- `dest_root / name`. -/
def destPath (cfg : Config) (name : String) : String := cfg.destDir ++ "/" ++ name

/-- `archive_path.with_suffix(".tar.tmp")` (line 81): on a path ending
in ".tar" this replaces that suffix by ".tar.tmp", i.e. appends
".tmp". -/
def tmpPath (archivePath : String) : String := archivePath ++ ".tmp"

/-- Whether `pat` occurs contiguously in `l`. -/
def infixOf (pat : List Char) : List Char → Bool
  | [] => pat.isEmpty
  | c :: rest => pat.isPrefixOf (c :: rest) || infixOf pat rest

/-- Whether `name` matches the Python glob `f"*{fid}.part*.tar"`
(line 162): the name ends in ".tar" and `fid ++ ".part"` occurs in
what precedes that suffix. -/
def globPartMatch (fid name : String) : Bool :=
  let nd := name.data
  (nd.drop (nd.length - 4) == ".tar".data) &&
    (infixOf (fid.data ++ ".part".data) (nd.take (nd.length - 4)))

/-- `len(list(dest_root.glob(f"*{folder_id}.part*.tar")))` (lines
162-163).  Only finalized archive parts can match: tracking and
manifest files end in ".txt" and temporaries in ".tmp", so the count
ranges over `fs.archives`. -/
def countParts (fs : FS) (fid : String) : Nat :=
  (fs.archives.filter (fun a => globPartMatch fid a.1)).length

/-! ## The engine -/

/-- `load_tracked_files` (lines 43-59): read the tracking file if it
exists, keep every line that is non-empty after stripping its newline
and does not start with the reserved "---" marker.  (The engine only
ever writes lines without surrounding whitespace, so `strip` is the
identity on stored lines and only removes the line terminator.) -/
def load_tracked_files (fs : FS) (trackedP : String) : List String :=
  match fs.lookupText trackedP with
  | none => []
  | some tf => tf.lines.filter (fun l => !(l == "") && !(strStartsWith l "---"))

/-- The lines `manifest.write(f"\n--- CONTENTS OF {archive_path.name} ---\n")`
(line 85) adds to the manifest: a blank line, then the header line. -/
def manifestHeaderLines (archivePath : String) : List String :=
  ["", "--- CONTENTS OF " ++ baseName archivePath ++ " ---"]

/-- `create_tar_part` (lines 61-101).  `filesToAdd` carry their archive
member name (`file_path.relative_to(source_root)`) in `rel`, because
the engine always passes `source_root = month_dir.parent.parent`, the
root the `rel` fields are relative to.  `failAt = some k` simulates an
exception raised by the k-th `tar.add` call (a vanished or unreadable
source file); at that point the temporary file exists and the manifest
holds its header plus the first k member lines, the tracking file the
first k member lines — the `with open` blocks close (and so flush)
both files while the exception unwinds, then the handler unlinks the
temporary and re-raises.  Per-file writes interleave tar/manifest/
tracking appends; since the three targets are distinct their net
effect equals the batched appends used here. -/
def create_tar_part (fs : FS) (archivePath : String) (filesToAdd : List SrcFile)
    (manifestP trackedP : String) (dryRun : Bool) (failAt : Option Nat) : WriteResult :=
  if dryRun then
    ⟨fs, [.dryRunPart (baseName archivePath) filesToAdd.length], true⟩
  else
    let tmp := tmpPath archivePath
    match (match failAt with
           | some k => if k < filesToAdd.length then some k else none
           | none => none) with
    | some k =>
      let pre := (filesToAdd.take k).map SrcFile.rel
      ⟨((((fs.addTemp tmp).appendText manifestP
            (manifestHeaderLines archivePath ++ pre)).appendText trackedP pre).removeTemp tmp),
        [.critical], false⟩
    | none =>
      let members := filesToAdd.map SrcFile.rel
      ⟨(((((fs.addTemp tmp).appendText manifestP
            (manifestHeaderLines archivePath ++ members)).appendText trackedP
              members).removeTemp tmp).addArchive (archivePath, members)),
        [.partSuccess (baseName archivePath)], true⟩

/-- The batch boundaries produced by the loop at lines 165-184:
accumulate into `batch` (with `size` its running byte total); before
adding a file, if `current_size > 0` and adding the candidate would
exceed `max_bytes`, close the batch; a non-empty final batch is also
closed. -/
def planBatches (maxB : Nat) (batch : List SrcFile) (size : Nat) :
    List SrcFile → List (List SrcFile)
  | [] => if batch.isEmpty then [] else [batch]
  | f :: rest =>
    if 0 < size ∧ maxB < size + f.size then
      batch :: planBatches maxB [f] f.size rest
    else
      planBatches maxB (batch ++ [f]) (size + f.size) rest

/-- The batches the loop forms for a fresh folder run. -/
def planNewFiles (maxB : Nat) (files : List SrcFile) : List (List SrcFile) :=
  planBatches maxB [] 0 files

/-- The archive parts (destination path and member list) the loop would
finalize for the given batches, numbering them from `n` upwards. -/
def numberParts (cfg : Config) (pfx fid : String) (n : Nat) :
    List (List SrcFile) → List (String × List String)
  | [] => []
  | b :: bs =>
    (destPath cfg (arcName pfx fid n), b.map SrcFile.rel) :: numberParts cfg pfx fid (n + 1) bs

/-- Pop the next entry of the failure oracle (one entry per
`create_tar_part` call; an exhausted oracle injects no failure). -/
def popFail : List (Option Nat) → Option Nat × List (Option Nat)
  | [] => (none, [])
  | f :: r => (f, r)

/-- The batching loop of `process_archiving` (lines 165-184): walk the
new files, close and write a part when adding the candidate would
overflow a non-empty running total, and finalize the remaining batch.
An exception from `create_tar_part` propagates (`ok = false`). -/
def batchLoop (cfg : Config) (pfx fid manifestP trackedP : String) (fs : FS) (partNum : Nat)
    (batch : List SrcFile) (size : Nat) :
    List SrcFile → List (Option Nat) → StepResult
  | [], fails =>
    if batch.isEmpty then ⟨fs, [], fails, true⟩
    else
      let (fa, rest) := popFail fails
      let w := create_tar_part fs (destPath cfg (arcName pfx fid partNum)) batch
        manifestP trackedP cfg.dryRun fa
      ⟨w.fs, w.log, rest, w.ok⟩
  | f :: fsRest, fails =>
    if 0 < size ∧ cfg.maxBytes < size + f.size then
      let (fa, rest) := popFail fails
      let w := create_tar_part fs (destPath cfg (arcName pfx fid partNum)) batch
        manifestP trackedP cfg.dryRun fa
      if w.ok then
        let r := batchLoop cfg pfx fid manifestP trackedP w.fs (partNum + 1) [f] f.size fsRest rest
        ⟨r.fs, w.log ++ r.log, r.fails, r.ok⟩
      else ⟨w.fs, w.log, rest, false⟩
    else
      batchLoop cfg pfx fid manifestP trackedP fs partNum (batch ++ [f]) (size + f.size) fsRest fails

/-- The change-detection check at line 135: the tracking file exists
and the folder's mtime is strictly below the tracking file's mtime. -/
def mtimeSkip (cfg : Config) (fs : FS) (F : Folder) : Bool :=
  match fs.lookupText (trackedPath cfg F.fid) with
  | some tf => decide (F.mtime < tf.mtime)
  | none => false

/-- The new-files list of lines 148-152: files below the month folder
whose path relative to `month_dir.parent.parent` is not yet tracked. -/
def newFilesOf (cfg : Config) (fs : FS) (F : Folder) : List SrcFile :=
  F.files.filter (fun f => !((load_tracked_files fs (trackedPath cfg F.fid)).contains f.rel))

/-- Line 158: `prefix = "STATIC" if not already_archived else "INC"`. -/
def prefixFor (cfg : Config) (fs : FS) (F : Folder) : String :=
  if (load_tracked_files fs (trackedPath cfg F.fid)).isEmpty then "STATIC" else "INC"

/-- The per-folder body of `process_archiving` (lines 129-188): the
change-detection skip, the date-boundary skip (`dir_date >
archive_until` compares Python strings), the scan for new files, the
no-op skip, and the batching loop. -/
def processFolder (cfg : Config) (archiveUntil : String) (fs : FS) (F : Folder)
    (fails : List (Option Nat)) : StepResult :=
  if mtimeSkip cfg fs F then ⟨fs, [], fails, true⟩
  else if pyStrLt archiveUntil F.dirDate then ⟨fs, [], fails, true⟩
  else if (newFilesOf cfg fs F).isEmpty then ⟨fs, [.scanning F.fid], fails, true⟩
  else
    let r := batchLoop cfg (prefixFor cfg fs F) F.fid (manifestPath cfg F.fid)
      (trackedPath cfg F.fid) fs (countParts fs F.fid + 1) [] 0 (newFilesOf cfg fs F) fails
    ⟨r.fs, .scanning F.fid :: r.log, r.fails, r.ok⟩

/-- The folder loop of `process_archiving`: folders in sorted order;
a failing batch write logs STOPPING and `break`s out of the loop. -/
def processFolders (cfg : Config) (archiveUntil : String) (fs : FS) :
    List Folder → List (Option Nat) → RunResult
  | [], _ => ⟨fs, []⟩
  | F :: rest, fails =>
    let r := processFolder cfg archiveUntil fs F fails
    if r.ok then
      let r2 := processFolders cfg archiveUntil r.fs rest r.fails
      ⟨r2.fs, r.log ++ r2.log⟩
    else ⟨r.fs, r.log ++ [.stopping]⟩

/-- `process_archiving` (lines 103-188): create the destination root
unless dry-run, compute `archive_until` as last month's `%Y-%m`, and
process the folders. -/
def processArchiving (cfg : Config) (today : Nat × Nat) (folders : List Folder) (fs : FS)
    (fails : List (Option Nat)) : RunResult :=
  let fs1 := if cfg.dryRun then fs else fs.mkdir cfg.destDir
  processFolders cfg (fmtYM (lastMonth today)) fs1 folders fails

/-- `main` (lines 190-211): if the config file is missing, report and
return; otherwise set up logging and log success.  The call
`process_archiving(config)` at line 208 is commented out in the
source, so no folder processing happens and the state is returned
untouched. -/
def main (configFound : Bool) (cfg : Config) (today : Nat × Nat) (folders : List Folder)
    (fs : FS) : RunResult :=
  if configFound then ⟨fs, [.finished]⟩ else ⟨fs, [.configMissing]⟩

/-- Total byte size of a batch (the loop's `current_size`). -/
def sizeSum (l : List SrcFile) : Nat := (l.map SrcFile.size).sum

/-- Size of the first file of a batch. -/
def headSize : List SrcFile → Nat
  | [] => 0
  | f :: _ => f.size

/-- After a clean run, every folder is in one of three states: the
change-detection check fires, the date boundary excludes it, or it has
no new files. -/
def SkipOrEmpty (cfg : Config) (au : String) (F : Folder) (fs : FS) : Prop :=
  mtimeSkip cfg fs F = true ∨ pyStrLt au F.dirDate = true ∨ newFilesOf cfg fs F = []

/-- Whether a destination entry named `name` is one of folder `fid`'s
archive parts, judged by the name shape the engine itself produces
(`STATIC_`/`INC_`, the folder id, `.part`). -/
def isPartOf (cfg : Config) (fid name : String) : Bool :=
  (destPath cfg ("STATIC_" ++ fid ++ ".part")).data.isPrefixOf name.data ||
    (destPath cfg ("INC_" ++ fid ++ ".part")).data.isPrefixOf name.data

/-- The correspondence claim C2 asserts between a folder's tracking
file and its finalized parts: a line is tracked exactly when some
finalized part of that folder contains it. -/
def TrackedInv (cfg : Config) (fid : String) (fs : FS) : Prop :=
  ∀ l, l ∈ textLines fs (trackedPath cfg fid) ↔
    ∃ a ∈ fs.archives, isPartOf cfg fid a.1 = true ∧ l ∈ a.2

/-! ## Lemmas about the destination-state primitives -/

theorem lookup_filter_ne (l : List (String × TextFile)) (p q : String) (h : q ≠ p) :
    (l.filter (fun e => !(e.1 == p))).lookup q = l.lookup q := by
  induction l with
  | nil => rfl
  | cons e l ih =>
    obtain ⟨k, v⟩ := e
    by_cases hp : k = p
    · subst hp
      simp [List.filter_cons, List.lookup, show (q == k) = false by simp [h], ih]
    · by_cases hqk : q = k
      · subst hqk
        simp [List.filter_cons, show (q == p) = false by simp [h], List.lookup]
      · simp [List.filter_cons, List.lookup, hp, show (q == k) = false by simp [hqk], ih]

@[simp] theorem lookupText_appendText_self (fs : FS) (p : String) (ls : List String) :
    (fs.appendText p ls).lookupText p = some ⟨textLines fs p ++ ls, fs.clock⟩ := by
  simp [FS.appendText, FS.lookupText, List.lookup]

theorem lookupText_appendText_ne (fs : FS) (p q : String) (ls : List String) (h : q ≠ p) :
    (fs.appendText p ls).lookupText q = fs.lookupText q := by
  simp only [FS.appendText, FS.lookupText, List.lookup, show (q == p) = false by simp [h]]
  exact lookup_filter_ne fs.texts p q h

@[simp] theorem textLines_appendText_self (fs : FS) (p : String) (ls : List String) :
    textLines (fs.appendText p ls) p = textLines fs p ++ ls := by
  simp [textLines]

theorem textLines_appendText_ne (fs : FS) (p q : String) (ls : List String) (h : q ≠ p) :
    textLines (fs.appendText p ls) q = textLines fs q := by
  simp [textLines, lookupText_appendText_ne fs p q ls h]

@[simp] theorem appendText_clock (fs : FS) (p : String) (ls : List String) :
    (fs.appendText p ls).clock = fs.clock + 1 := rfl

@[simp] theorem appendText_archives (fs : FS) (p : String) (ls : List String) :
    (fs.appendText p ls).archives = fs.archives := rfl

@[simp] theorem appendText_temps (fs : FS) (p : String) (ls : List String) :
    (fs.appendText p ls).temps = fs.temps := rfl

@[simp] theorem appendText_dirs (fs : FS) (p : String) (ls : List String) :
    (fs.appendText p ls).dirs = fs.dirs := rfl

@[simp] theorem mkdir_lookupText (fs : FS) (d p : String) :
    (fs.mkdir d).lookupText p = fs.lookupText p := by
  unfold FS.mkdir; split <;> rfl

@[simp] theorem mkdir_clock (fs : FS) (d : String) : (fs.mkdir d).clock = fs.clock := by
  unfold FS.mkdir; split <;> rfl

@[simp] theorem mkdir_archives (fs : FS) (d : String) : (fs.mkdir d).archives = fs.archives := by
  unfold FS.mkdir; split <;> rfl

theorem mkdir_contains (fs : FS) (d : String) : (fs.mkdir d).dirs.contains d = true := by
  unfold FS.mkdir
  split
  · assumption
  · simp

theorem mkdir_of_contains (fs : FS) (d : String) (h : fs.dirs.contains d = true) :
    fs.mkdir d = fs := by
  unfold FS.mkdir; rw [if_pos h]

@[simp] theorem addTemp_lookupText (fs : FS) (t p : String) :
    (fs.addTemp t).lookupText p = fs.lookupText p := by
  unfold FS.addTemp; split <;> rfl

@[simp] theorem addTemp_textLines (fs : FS) (t p : String) :
    textLines (fs.addTemp t) p = textLines fs p := by
  simp [textLines]

@[simp] theorem addTemp_clock (fs : FS) (t : String) : (fs.addTemp t).clock = fs.clock := by
  unfold FS.addTemp; split <;> rfl

@[simp] theorem addTemp_archives (fs : FS) (t : String) :
    (fs.addTemp t).archives = fs.archives := by
  unfold FS.addTemp; split <;> rfl

@[simp] theorem addTemp_dirs (fs : FS) (t : String) : (fs.addTemp t).dirs = fs.dirs := by
  unfold FS.addTemp; split <;> rfl

theorem addTemp_temps (fs : FS) (t : String) :
    (fs.addTemp t).temps = if fs.temps.contains t then fs.temps else t :: fs.temps := by
  unfold FS.addTemp; split <;> simp_all

@[simp] theorem removeTemp_lookupText (fs : FS) (t p : String) :
    (fs.removeTemp t).lookupText p = fs.lookupText p := rfl

@[simp] theorem removeTemp_clock (fs : FS) (t : String) : (fs.removeTemp t).clock = fs.clock := rfl

@[simp] theorem removeTemp_archives (fs : FS) (t : String) :
    (fs.removeTemp t).archives = fs.archives := rfl

@[simp] theorem removeTemp_dirs (fs : FS) (t : String) : (fs.removeTemp t).dirs = fs.dirs := rfl

@[simp] theorem removeTemp_temps (fs : FS) (t : String) :
    (fs.removeTemp t).temps = fs.temps.erase t := rfl

@[simp] theorem addArchive_lookupText (fs : FS) (a : String × List String) (p : String) :
    (fs.addArchive a).lookupText p = fs.lookupText p := rfl

@[simp] theorem addArchive_clock (fs : FS) (a : String × List String) :
    (fs.addArchive a).clock = fs.clock := rfl

@[simp] theorem addArchive_archives (fs : FS) (a : String × List String) :
    (fs.addArchive a).archives = fs.archives ++ [a] := rfl

@[simp] theorem addArchive_dirs (fs : FS) (a : String × List String) :
    (fs.addArchive a).dirs = fs.dirs := rfl

@[simp] theorem addArchive_temps (fs : FS) (a : String × List String) :
    (fs.addArchive a).temps = fs.temps := rfl

/-! ## Lemmas about the batch boundaries -/

@[simp] theorem sizeSum_nil : sizeSum [] = 0 := rfl

@[simp] theorem sizeSum_append (l m : List SrcFile) :
    sizeSum (l ++ m) = sizeSum l + sizeSum m := by
  simp [sizeSum]

@[simp] theorem sizeSum_cons (f : SrcFile) (l : List SrcFile) :
    sizeSum (f :: l) = f.size + sizeSum l := by
  simp [sizeSum]

theorem plan_flatten (maxB : Nat) :
    ∀ (files batch : List SrcFile) (size : Nat),
      (planBatches maxB batch size files).flatten = batch ++ files := by
  intro files
  induction files with
  | nil =>
    intro batch size
    by_cases h : batch.isEmpty <;> simp_all [planBatches, List.isEmpty_iff]
  | cons f rest ih =>
    intro batch size
    by_cases h : 0 < size ∧ maxB < size + f.size <;>
      simp [planBatches, h, ih]

theorem plan_nonempty (maxB : Nat) :
    ∀ (files batch : List SrcFile) (size : Nat), (0 < size → batch ≠ []) →
      ∀ b ∈ planBatches maxB batch size files, b ≠ [] := by
  intro files
  induction files with
  | nil =>
    intro batch size hb b hmem
    by_cases h : batch.isEmpty
    · simp [planBatches, h] at hmem
    · simp only [planBatches, if_neg h, List.mem_singleton] at hmem
      subst hmem
      simpa [List.isEmpty_iff] using h
  | cons f rest ih =>
    intro batch size hb b hmem
    by_cases h : 0 < size ∧ maxB < size + f.size
    · simp only [planBatches, if_pos h, List.mem_cons] at hmem
      rcases hmem with rfl | hmem
      · exact hb h.1
      · exact ih [f] f.size (by simp) b hmem
    · simp only [planBatches, if_neg h] at hmem
      exact ih (batch ++ [f]) (size + f.size) (by simp) b hmem

theorem plan_oversize (maxB : Nat) :
    ∀ (files batch : List SrcFile) (size : Nat), size = sizeSum batch →
      (maxB < size → sizeSum batch.dropLast = 0) →
      ∀ b ∈ planBatches maxB batch size files,
        maxB < sizeSum b → sizeSum b.dropLast = 0 := by
  intro files
  induction files with
  | nil =>
    intro batch size hsz hinv b hmem hover
    by_cases h : batch.isEmpty
    · simp [planBatches, h] at hmem
    · simp only [planBatches, if_neg h, List.mem_singleton] at hmem
      subst hmem
      exact hinv (hsz ▸ hover)
  | cons f rest ih =>
    intro batch size hsz hinv b hmem hover
    by_cases h : 0 < size ∧ maxB < size + f.size
    · simp only [planBatches, if_pos h, List.mem_cons] at hmem
      rcases hmem with rfl | hmem
      · exact hinv (hsz ▸ hover)
      · exact ih [f] f.size (by simp) (by simp) b hmem hover
    · simp only [planBatches, if_neg h] at hmem
      refine ih (batch ++ [f]) (size + f.size) (by simp [hsz]) ?_ b hmem hover
      intro hov
      have hz : size = 0 := by
        by_contra hnz
        exact h ⟨Nat.pos_of_ne_zero hnz, hov⟩
      simp only [List.dropLast_concat]
      omega

theorem plan_head (maxB : Nat) :
    ∀ (files batch : List SrcFile) (size : Nat), batch ≠ [] →
      ∃ t, (planBatches maxB batch size files).head? = some (batch ++ t) := by
  intro files
  induction files with
  | nil =>
    intro batch size hb
    have h : batch.isEmpty = false := by simpa [List.isEmpty_iff] using hb
    exact ⟨[], by simp [planBatches, h]⟩
  | cons f rest ih =>
    intro batch size hb
    by_cases h : 0 < size ∧ maxB < size + f.size
    · exact ⟨[], by simp [planBatches, h]⟩
    · obtain ⟨t, ht⟩ := ih (batch ++ [f]) (size + f.size) (by simp)
      exact ⟨[f] ++ t, by simpa [planBatches, h] using ht⟩

theorem plan_chain (maxB : Nat) :
    ∀ (files batch : List SrcFile) (size : Nat), size = sizeSum batch →
      List.Chain' (fun b b' => 0 < sizeSum b ∧ maxB < sizeSum b + headSize b')
        (planBatches maxB batch size files) := by
  intro files
  induction files with
  | nil =>
    intro batch size hsz
    by_cases h : batch.isEmpty <;> simp [planBatches, h]
  | cons f rest ih =>
    intro batch size hsz
    by_cases h : 0 < size ∧ maxB < size + f.size
    · simp only [planBatches, if_pos h]
      rw [List.chain'_cons']
      refine ⟨?_, ih [f] f.size (by simp)⟩
      intro b hb
      obtain ⟨t, ht⟩ := plan_head maxB rest [f] f.size (by simp)
      rw [ht] at hb
      cases hb
      constructor
      · omega
      · simpa [headSize] using (hsz ▸ h.2)
    · simp only [planBatches, if_neg h]
      exact ih (batch ++ [f]) (size + f.size) (by simp [hsz])

theorem plan_ne_nil (maxB : Nat) :
    ∀ (files batch : List SrcFile) (size : Nat), batch ≠ [] →
      planBatches maxB batch size files ≠ [] := by
  intro files batch size hb
  obtain ⟨t, ht⟩ := plan_head maxB files batch size hb
  intro hnil
  rw [hnil] at ht
  simp at ht

/-! ## Lemmas about the date-string comparison -/

theorem dChar_lt_iff (a b : Nat) : dChar a < dChar b ↔ a % 10 < b % 10 := by
  have ha : a % 10 < 10 := Nat.mod_lt _ (by decide)
  have hb : b % 10 < 10 := Nat.mod_lt _ (by decide)
  unfold dChar
  set x := a % 10 with hx
  set y := b % 10 with hy
  interval_cases x <;> interval_cases y <;> decide

theorem dChar_eq_iff (a b : Nat) : dChar a = dChar b ↔ a % 10 = b % 10 := by
  have ha : a % 10 < 10 := Nat.mod_lt _ (by decide)
  have hb : b % 10 < 10 := Nat.mod_lt _ (by decide)
  unfold dChar
  set x := a % 10 with hx
  set y := b % 10 with hy
  interval_cases x <;> interval_cases y <;> decide

theorem charsLt_dChar_cons (a b : Nat) (as bs : List Char) :
    charsLt (dChar a :: as) (dChar b :: bs) =
      if a % 10 < b % 10 then true else if b % 10 < a % 10 then false else charsLt as bs := by
  simp only [charsLt, dChar_lt_iff]

theorem charsLt_dash_cons (as bs : List Char) :
    charsLt ('-' :: as) ('-' :: bs) = charsLt as bs := by
  simp [charsLt]

theorem charsLt_cons (a b : Char) (as bs : List Char) :
    charsLt (a :: as) (b :: bs) =
      if a < b then true else if b < a then false else charsLt as bs := rfl

theorem charsLt_append (xs : List Char) :
    ∀ (ys xs' ys' : List Char), xs.length = ys.length →
      charsLt (xs ++ xs') (ys ++ ys') =
        (charsLt xs ys || (decide (xs = ys) && charsLt xs' ys')) := by
  induction xs with
  | nil =>
    intro ys xs' ys' h
    have : ys = [] := by simpa using (List.length_eq_zero.mp h.symm)
    subst this
    simp [charsLt]
  | cons a as ih =>
    intro ys xs' ys' h
    cases ys with
    | nil => simp at h
    | cons b bs =>
      rw [List.cons_append, List.cons_append, charsLt_cons, charsLt_cons]
      by_cases hab : a < b
      · simp [hab]
      · by_cases hba : b < a
        · have hne : ¬ (a = b) := fun hh => absurd (hh ▸ hba) (lt_irrefl a)
          simp [hab, hba, hne]
        · have hEq : a = b := le_antisymm (not_lt.mp hba) (not_lt.mp hab)
          subst hEq
          rw [if_neg hab, if_neg hab, if_neg hba, if_neg hba,
            ih bs xs' ys' (by simpa using h)]
          simp

theorem fmtY_lt (y₁ y₂ : Nat) (hy₁ : y₁ < 10000) (hy₂ : y₂ < 10000) :
    charsLt (fmtY y₁).data (fmtY y₂).data = true ↔ y₁ < y₂ := by
  show charsLt [dChar (y₁ / 1000), dChar (y₁ / 100), dChar (y₁ / 10), dChar y₁]
      [dChar (y₂ / 1000), dChar (y₂ / 100), dChar (y₂ / 10), dChar y₂] = true ↔ y₁ < y₂
  rw [charsLt_dChar_cons, charsLt_dChar_cons, charsLt_dChar_cons, charsLt_dChar_cons,
    show charsLt [] [] = false from rfl]
  split_ifs <;>
    simp only [eq_self_iff_true, Bool.false_eq_true, true_iff, false_iff] <;> omega

theorem fmtY_eq (y₁ y₂ : Nat) (hy₁ : y₁ < 10000) (hy₂ : y₂ < 10000) :
    (fmtY y₁).data = (fmtY y₂).data ↔ y₁ = y₂ := by
  show [dChar (y₁ / 1000), dChar (y₁ / 100), dChar (y₁ / 10), dChar y₁] =
      [dChar (y₂ / 1000), dChar (y₂ / 100), dChar (y₂ / 10), dChar y₂] ↔ y₁ = y₂
  simp only [List.cons.injEq, and_true, dChar_eq_iff]
  omega

theorem fmtM_lt (m₁ m₂ : Nat) (hm₁ : m₁ < 100) (hm₂ : m₂ < 100) :
    charsLt (fmtM m₁).data (fmtM m₂).data = true ↔ m₁ < m₂ := by
  show charsLt [dChar (m₁ / 10), dChar m₁] [dChar (m₂ / 10), dChar m₂] = true ↔ m₁ < m₂
  rw [charsLt_dChar_cons, charsLt_dChar_cons, show charsLt [] [] = false from rfl]
  split_ifs <;>
    simp only [eq_self_iff_true, Bool.false_eq_true, true_iff, false_iff] <;> omega

/-- The comparison behind `dir_date > archive_until` (line 141): for
zero-padded dates the Python string order is the numeric
(year, month) lexicographic order. -/
theorem pyStrLt_dates (y₁ m₁ y₂ m₂ : Nat)
    (hy₁ : y₁ < 10000) (hy₂ : y₂ < 10000) (hm₁ : m₁ < 100) (hm₂ : m₂ < 100) :
    pyStrLt (fmtY y₁ ++ "-" ++ fmtM m₁) (fmtY y₂ ++ "-" ++ fmtM m₂) = true ↔
      (y₁ < y₂ ∨ (y₁ = y₂ ∧ m₁ < m₂)) := by
  have hdata : ∀ y m : Nat, (fmtY y ++ "-" ++ fmtM m).data =
      (fmtY y).data ++ ('-' :: (fmtM m).data) := by
    intro y m
    rw [String.data_append, String.data_append]
    rfl
  have hlen : ∀ y : Nat, (fmtY y).data.length = 4 := fun y => rfl
  unfold pyStrLt
  rw [hdata, hdata, charsLt_append _ _ _ _ (by rw [hlen, hlen]), charsLt_dash_cons]
  constructor
  · intro hh
    rcases Bool.or_eq_true_iff.mp hh with hlt | hand
    · exact Or.inl ((fmtY_lt y₁ y₂ hy₁ hy₂).mp hlt)
    · obtain ⟨hdec, hmlt⟩ := Bool.and_eq_true_iff.mp hand
      have hye : y₁ = y₂ := (fmtY_eq y₁ y₂ hy₁ hy₂).mp (of_decide_eq_true hdec)
      exact Or.inr ⟨hye, (fmtM_lt m₁ m₂ hm₁ hm₂).mp hmlt⟩
  · intro hh
    rcases hh with hlt | ⟨hye, hmlt⟩
    · exact Bool.or_eq_true_iff.mpr (Or.inl ((fmtY_lt y₁ y₂ hy₁ hy₂).mpr hlt))
    · refine Bool.or_eq_true_iff.mpr (Or.inr (Bool.and_eq_true_iff.mpr ⟨?_, ?_⟩))
      · exact decide_eq_true ((fmtY_eq y₁ y₂ hy₁ hy₂).mpr hye)
      · exact (fmtM_lt m₁ m₂ hm₁ hm₂).mpr hmlt

/-! ## Characterization of `create_tar_part` -/

@[simp] theorem removeTemp_textLines (fs : FS) (t p : String) :
    textLines (fs.removeTemp t) p = textLines fs p := by
  simp [textLines]

@[simp] theorem addArchive_textLines (fs : FS) (a : String × List String) (p : String) :
    textLines (fs.addArchive a) p = textLines fs p := by
  simp [textLines]

theorem create_dry_spec (fs : FS) (ap : String) (files : List SrcFile) (mp tp : String)
    (failAt : Option Nat) :
    create_tar_part fs ap files mp tp true failAt =
      ⟨fs, [.dryRunPart (baseName ap) files.length], true⟩ := rfl

theorem create_none_eq (fs : FS) (ap : String) (files : List SrcFile) (mp tp : String) :
    create_tar_part fs ap files mp tp false none =
      ⟨(((fs.addTemp (tmpPath ap)).appendText mp
            (manifestHeaderLines ap ++ files.map SrcFile.rel)).appendText tp
              (files.map SrcFile.rel)).removeTemp (tmpPath ap) |>.addArchive
                (ap, files.map SrcFile.rel),
        [.partSuccess (baseName ap)], true⟩ := rfl

theorem create_some_eq (fs : FS) (ap : String) (files : List SrcFile) (mp tp : String)
    (k : Nat) (hk : k < files.length) :
    create_tar_part fs ap files mp tp false (some k) =
      ⟨(((fs.addTemp (tmpPath ap)).appendText mp
            (manifestHeaderLines ap ++ (files.take k).map SrcFile.rel)).appendText tp
              ((files.take k).map SrcFile.rel)).removeTemp (tmpPath ap),
        [.critical], false⟩ := by
  unfold create_tar_part
  simp [hk]

/-- What a successful non-dry `create_tar_part` call does: adds the
finalized part, appends the member names to the tracking file (stamped
after the manifest write), appends the header and member names to the
manifest, leaves every other text file alone, and consumes the
temporary file. -/
theorem create_none_spec (fs : FS) (ap : String) (files : List SrcFile) (mp tp : String)
    (hmt : mp ≠ tp) :
    (create_tar_part fs ap files mp tp false none).ok = true ∧
    (create_tar_part fs ap files mp tp false none).log = [.partSuccess (baseName ap)] ∧
    (create_tar_part fs ap files mp tp false none).fs.archives =
      fs.archives ++ [(ap, files.map SrcFile.rel)] ∧
    (create_tar_part fs ap files mp tp false none).fs.lookupText tp =
      some ⟨textLines fs tp ++ files.map SrcFile.rel, fs.clock + 1⟩ ∧
    (create_tar_part fs ap files mp tp false none).fs.lookupText mp =
      some ⟨textLines fs mp ++ (manifestHeaderLines ap ++ files.map SrcFile.rel), fs.clock⟩ ∧
    (∀ p, p ≠ tp → p ≠ mp →
      (create_tar_part fs ap files mp tp false none).fs.lookupText p = fs.lookupText p) ∧
    (create_tar_part fs ap files mp tp false none).fs.clock = fs.clock + 2 ∧
    (create_tar_part fs ap files mp tp false none).fs.dirs = fs.dirs ∧
    (create_tar_part fs ap files mp tp false none).fs.temps =
      (if fs.temps.contains (tmpPath ap) then fs.temps
        else tmpPath ap :: fs.temps).erase (tmpPath ap) := by
  rw [create_none_eq]
  refine ⟨rfl, rfl, by simp, ?_, ?_, ?_, by simp, by simp, by simp [addTemp_temps]⟩
  · simp only [addArchive_lookupText, removeTemp_lookupText, lookupText_appendText_self,
      textLines_appendText_ne _ mp tp _ (Ne.symm hmt), addTemp_textLines, appendText_clock,
      addTemp_clock]
  · simp only [addArchive_lookupText, removeTemp_lookupText,
      lookupText_appendText_ne _ tp mp _ hmt, lookupText_appendText_self, addTemp_textLines,
      addTemp_clock]
  · intro p hp hm
    simp only [addArchive_lookupText, removeTemp_lookupText,
      lookupText_appendText_ne _ tp p _ hp, lookupText_appendText_ne _ mp p _ hm,
      addTemp_lookupText]

/-- What a non-dry `create_tar_part` call does when the k-th `tar.add`
raises (`k < files.length`): no part is finalized, the temporary file
is deleted, the error propagates — but the manifest header and the
first k member lines of both the manifest and the tracking file stay
committed, because the `with open` blocks flush them while the
exception unwinds. -/
theorem create_some_spec (fs : FS) (ap : String) (files : List SrcFile) (mp tp : String)
    (k : Nat) (hmt : mp ≠ tp) (hk : k < files.length) :
    (create_tar_part fs ap files mp tp false (some k)).ok = false ∧
    (create_tar_part fs ap files mp tp false (some k)).log = [.critical] ∧
    (create_tar_part fs ap files mp tp false (some k)).fs.archives = fs.archives ∧
    (create_tar_part fs ap files mp tp false (some k)).fs.lookupText tp =
      some ⟨textLines fs tp ++ (files.take k).map SrcFile.rel, fs.clock + 1⟩ ∧
    (create_tar_part fs ap files mp tp false (some k)).fs.lookupText mp =
      some ⟨textLines fs mp ++ (manifestHeaderLines ap ++ (files.take k).map SrcFile.rel),
        fs.clock⟩ ∧
    (∀ p, p ≠ tp → p ≠ mp →
      (create_tar_part fs ap files mp tp false (some k)).fs.lookupText p = fs.lookupText p) ∧
    (create_tar_part fs ap files mp tp false (some k)).fs.clock = fs.clock + 2 ∧
    (create_tar_part fs ap files mp tp false (some k)).fs.dirs = fs.dirs ∧
    (create_tar_part fs ap files mp tp false (some k)).fs.temps =
      (if fs.temps.contains (tmpPath ap) then fs.temps
        else tmpPath ap :: fs.temps).erase (tmpPath ap) := by
  rw [create_some_eq fs ap files mp tp k hk]
  refine ⟨rfl, rfl, by simp, ?_, ?_, ?_, by simp, by simp, by simp [addTemp_temps]⟩
  · simp only [removeTemp_lookupText, lookupText_appendText_self,
      textLines_appendText_ne _ mp tp _ (Ne.symm hmt), addTemp_textLines, appendText_clock,
      addTemp_clock]
  · simp only [removeTemp_lookupText, lookupText_appendText_ne _ tp mp _ hmt,
      lookupText_appendText_self, addTemp_textLines, addTemp_clock]
  · intro p hp hm
    simp only [removeTemp_lookupText, lookupText_appendText_ne _ tp p _ hp,
      lookupText_appendText_ne _ mp p _ hm, addTemp_lookupText]

/-! ## Characterization of the batch loop -/

theorem textLines_of_lookup (fs : FS) (p : String) (tf : TextFile)
    (h : fs.lookupText p = some tf) : textLines fs p = tf.lines := by
  simp [textLines, h]

/-- A run of the batch loop with no injected failure: it returns
normally, finalizes exactly the planned batches as parts numbered from
`partNum` on, appends exactly the batched members to the tracking
file, touches no other text file, and leaves the tracking file (when
it writes at all) with an mtime at or after the starting clock. -/
theorem batchLoop_spec (cfg : Config) (pfx fid mp tp : String) (hmt : mp ≠ tp)
    (hdry : cfg.dryRun = false) :
    ∀ (files batch : List SrcFile) (size : Nat) (fs : FS) (n : Nat),
      (batchLoop cfg pfx fid mp tp fs n batch size files []).ok = true ∧
      (batchLoop cfg pfx fid mp tp fs n batch size files []).fails = [] ∧
      (batchLoop cfg pfx fid mp tp fs n batch size files []).fs.archives =
        fs.archives ++ numberParts cfg pfx fid n (planBatches cfg.maxBytes batch size files) ∧
      textLines (batchLoop cfg pfx fid mp tp fs n batch size files []).fs tp =
        textLines fs tp ++ (batch ++ files).map SrcFile.rel ∧
      fs.clock ≤ (batchLoop cfg pfx fid mp tp fs n batch size files []).fs.clock ∧
      (∀ p, p ≠ tp → p ≠ mp →
        (batchLoop cfg pfx fid mp tp fs n batch size files []).fs.lookupText p =
          fs.lookupText p) ∧
      (batchLoop cfg pfx fid mp tp fs n batch size files []).fs.dirs = fs.dirs ∧
      (planBatches cfg.maxBytes batch size files ≠ [] →
        ∃ tf, (batchLoop cfg pfx fid mp tp fs n batch size files []).fs.lookupText tp =
          some tf ∧ fs.clock ≤ tf.mtime) := by
  intro files
  induction files with
  | nil =>
    intro batch size fs n
    by_cases hb : batch.isEmpty
    · have hbnil : batch = [] := List.isEmpty_iff.mp hb
      subst hbnil
      simp [batchLoop, planBatches, numberParts]
    · obtain ⟨hok, hlog, harch, htp, hmp2, hother, hclk, hdirs, htmp⟩ :=
        create_none_spec fs (destPath cfg (arcName pfx fid n)) batch mp tp hmt
      have heq : batchLoop cfg pfx fid mp tp fs n batch size [] [] =
          ⟨(create_tar_part fs (destPath cfg (arcName pfx fid n)) batch mp tp false none).fs,
            (create_tar_part fs (destPath cfg (arcName pfx fid n)) batch mp tp false none).log,
            [],
            (create_tar_part fs (destPath cfg (arcName pfx fid n)) batch mp tp false none).ok⟩ := by
        simp [batchLoop, hb, popFail, hdry]
      rw [heq]
      refine ⟨hok, rfl, ?_, ?_, ?_, hother, hdirs, ?_⟩
      · simp [harch, planBatches, hb, numberParts]
      · rw [textLines_of_lookup _ _ _ htp]
        simp
      · dsimp only
        omega
      · intro hplan
        exact ⟨_, htp, by dsimp only; omega⟩
  | cons f rest ih =>
    intro batch size fs n
    by_cases hcond : 0 < size ∧ cfg.maxBytes < size + f.size
    · obtain ⟨hok, hlog, harch, htp, hmp2, hother, hclk, hdirs, htmp⟩ :=
        create_none_spec fs (destPath cfg (arcName pfx fid n)) batch mp tp hmt
      set w := create_tar_part fs (destPath cfg (arcName pfx fid n)) batch mp tp false none
        with hw
      have heq : batchLoop cfg pfx fid mp tp fs n batch size (f :: rest) [] =
          ⟨(batchLoop cfg pfx fid mp tp w.fs (n + 1) [f] f.size rest []).fs,
            w.log ++ (batchLoop cfg pfx fid mp tp w.fs (n + 1) [f] f.size rest []).log,
            (batchLoop cfg pfx fid mp tp w.fs (n + 1) [f] f.size rest []).fails,
            (batchLoop cfg pfx fid mp tp w.fs (n + 1) [f] f.size rest []).ok⟩ := by
        simp [batchLoop, hcond, popFail, hdry, ← hw, hok]
      obtain ⟨iok, ifails, iarch, itp, iclk, iother, idirs, imt⟩ :=
        ih [f] f.size w.fs (n + 1)
      rw [heq]
      have hplan : planBatches cfg.maxBytes batch size (f :: rest) =
          batch :: planBatches cfg.maxBytes [f] f.size rest := by
        simp [planBatches, hcond]
      refine ⟨iok, ifails, ?_, ?_, ?_, ?_, ?_, ?_⟩
      · rw [iarch, harch, hplan]
        simp [numberParts]
      · rw [itp, textLines_of_lookup _ _ _ htp]
        simp
      · dsimp only
        omega
      · intro p hp hm
        rw [iother p hp hm, hother p hp hm]
      · rw [idirs, hdirs]
      · intro _
        have hne : planBatches cfg.maxBytes [f] f.size rest ≠ [] :=
          plan_ne_nil cfg.maxBytes rest [f] f.size (by simp)
        obtain ⟨tf, h1, h2⟩ := imt hne
        exact ⟨tf, h1, by omega⟩
    · have heq : batchLoop cfg pfx fid mp tp fs n batch size (f :: rest) [] =
          batchLoop cfg pfx fid mp tp fs n (batch ++ [f]) (size + f.size) rest [] := by
        simp [batchLoop, hcond]
      have hplan : planBatches cfg.maxBytes batch size (f :: rest) =
          planBatches cfg.maxBytes (batch ++ [f]) (size + f.size) rest := by
        simp [planBatches, hcond]
      obtain ⟨iok, ifails, iarch, itp, iclk, iother, idirs, imt⟩ :=
        ih (batch ++ [f]) (size + f.size) fs n
      rw [heq, hplan]
      refine ⟨iok, ifails, iarch, ?_, iclk, iother, idirs, imt⟩
      rw [itp]
      simp

/-- A dry run of the batch loop changes nothing and only reports
would-be parts. -/
theorem batchLoop_dry (cfg : Config) (pfx fid mp tp : String) (hdry : cfg.dryRun = true) :
    ∀ (files batch : List SrcFile) (size : Nat) (fs : FS) (n : Nat) (fails : List (Option Nat)),
      (batchLoop cfg pfx fid mp tp fs n batch size files fails).fs = fs ∧
      (batchLoop cfg pfx fid mp tp fs n batch size files fails).ok = true ∧
      (∀ e ∈ (batchLoop cfg pfx fid mp tp fs n batch size files fails).log,
        ∃ nm c, e = .dryRunPart nm c) := by
  intro files
  induction files with
  | nil =>
    intro batch size fs n fails
    by_cases hb : batch.isEmpty
    · simp [batchLoop, hb]
    · simp [batchLoop, hb, hdry, create_dry_spec]
  | cons f rest ih =>
    intro batch size fs n fails
    by_cases hcond : 0 < size ∧ cfg.maxBytes < size + f.size
    · obtain ⟨ifs, iok, ilog⟩ := ih [f] f.size fs (n + 1) (popFail fails).2
      simp only [batchLoop, if_pos hcond, hdry, create_dry_spec, if_true]
      refine ⟨ifs, iok, ?_⟩
      intro e he
      simp only [List.mem_append, List.mem_singleton] at he
      rcases he with he | he
      · exact ⟨_, _, he⟩
      · exact ilog e he
    · simpa [batchLoop, hcond] using ih (batch ++ [f]) (size + f.size) fs n fails

/-! ## Distinctness of the per-folder file paths -/

theorem ne_of_ne_suffix (x y : String) (s t : List Char) (hs : s <:+ x.data)
    (ht : t <:+ y.data) (hlen : s.length = t.length) (hst : s ≠ t) : x ≠ y := by
  intro h
  subst h
  obtain ⟨u, hu⟩ := hs
  obtain ⟨v, hv⟩ := ht
  rw [← hv] at hu
  have hul : u.length = v.length := by
    have := congrArg List.length hu
    simp only [List.length_append] at this
    omega
  exact hst (List.append_inj_right hu hul)

theorem manifestPath_ne_trackedPath (cfg cfg' : Config) (fid fid' : String) :
    manifestPath cfg fid ≠ trackedPath cfg' fid' := by
  refine ne_of_ne_suffix _ _ "contents.txt".data ".tracked.txt".data ?_ ?_ (by decide) (by decide)
  · exact ⟨(cfg.destDir ++ "/" ++ fid).data ++ ['.'], by
      unfold manifestPath
      rw [String.data_append]
      simp⟩
  · exact ⟨(cfg'.destDir ++ "/" ++ fid').data, by
      unfold trackedPath
      simp [String.data_append]⟩

theorem trackedPath_inj (cfg : Config) (fid fid' : String)
    (h : trackedPath cfg fid = trackedPath cfg fid') : fid = fid' := by
  unfold trackedPath at h
  have hd := congrArg String.data h
  rw [String.data_append, String.data_append, String.data_append, String.data_append] at hd
  exact String.ext (List.append_cancel_left (List.append_cancel_right hd))

/-! ## Characterization of `processFolder` -/

theorem processFolder_mtimeSkip (cfg : Config) (au : String) (fs : FS) (F : Folder)
    (fails : List (Option Nat)) (h : mtimeSkip cfg fs F = true) :
    processFolder cfg au fs F fails = ⟨fs, [], fails, true⟩ := by
  simp [processFolder, h]

theorem processFolder_dateSkip (cfg : Config) (au : String) (fs : FS) (F : Folder)
    (fails : List (Option Nat)) (h1 : mtimeSkip cfg fs F = false)
    (h2 : pyStrLt au F.dirDate = true) :
    processFolder cfg au fs F fails = ⟨fs, [], fails, true⟩ := by
  simp [processFolder, h1, h2]

theorem processFolder_noNew (cfg : Config) (au : String) (fs : FS) (F : Folder)
    (fails : List (Option Nat)) (h1 : mtimeSkip cfg fs F = false)
    (h2 : pyStrLt au F.dirDate = false) (h3 : (newFilesOf cfg fs F).isEmpty = true) :
    processFolder cfg au fs F fails = ⟨fs, [.scanning F.fid], fails, true⟩ := by
  simp [processFolder, h1, h2, h3]

theorem planNewFiles_ne_nil (maxB : Nat) (files : List SrcFile) (h : files ≠ []) :
    planNewFiles maxB files ≠ [] := by
  intro hc
  have hf := plan_flatten maxB files [] 0
  unfold planNewFiles at hc
  rw [hc] at hf
  simp at hf
  exact h hf

/-- A fully successful (no injected failure, non-dry) folder run that
reaches the batching stage: it finalizes exactly the planned parts,
numbered from the existing-part count plus one, appends exactly the
new files' members to the folder's tracking file, leaves every other
text file alone, and leaves the tracking file stamped at or after the
starting clock. -/
theorem processFolder_run (cfg : Config) (au : String) (fs : FS) (F : Folder)
    (hdry : cfg.dryRun = false) (h1 : mtimeSkip cfg fs F = false)
    (h2 : pyStrLt au F.dirDate = false) (h3 : (newFilesOf cfg fs F).isEmpty = false) :
    (processFolder cfg au fs F []).ok = true ∧
    (processFolder cfg au fs F []).fails = [] ∧
    (processFolder cfg au fs F []).fs.archives =
      fs.archives ++ numberParts cfg (prefixFor cfg fs F) F.fid (countParts fs F.fid + 1)
        (planNewFiles cfg.maxBytes (newFilesOf cfg fs F)) ∧
    textLines (processFolder cfg au fs F []).fs (trackedPath cfg F.fid) =
      textLines fs (trackedPath cfg F.fid) ++ (newFilesOf cfg fs F).map SrcFile.rel ∧
    fs.clock ≤ (processFolder cfg au fs F []).fs.clock ∧
    (∀ p, p ≠ trackedPath cfg F.fid → p ≠ manifestPath cfg F.fid →
      (processFolder cfg au fs F []).fs.lookupText p = fs.lookupText p) ∧
    (processFolder cfg au fs F []).fs.dirs = fs.dirs ∧
    (∃ tf, (processFolder cfg au fs F []).fs.lookupText (trackedPath cfg F.fid) = some tf ∧
      fs.clock ≤ tf.mtime) := by
  have hmt : manifestPath cfg F.fid ≠ trackedPath cfg F.fid :=
    manifestPath_ne_trackedPath cfg cfg F.fid F.fid
  obtain ⟨bok, bfails, barch, btp, bclk, bother, bdirs, bmt⟩ :=
    batchLoop_spec cfg (prefixFor cfg fs F) F.fid (manifestPath cfg F.fid)
      (trackedPath cfg F.fid) hmt hdry (newFilesOf cfg fs F) [] 0 fs (countParts fs F.fid + 1)
  have heq : processFolder cfg au fs F [] =
      ⟨(batchLoop cfg (prefixFor cfg fs F) F.fid (manifestPath cfg F.fid)
          (trackedPath cfg F.fid) fs (countParts fs F.fid + 1) [] 0 (newFilesOf cfg fs F) []).fs,
        .scanning F.fid :: (batchLoop cfg (prefixFor cfg fs F) F.fid (manifestPath cfg F.fid)
          (trackedPath cfg F.fid) fs (countParts fs F.fid + 1) [] 0
            (newFilesOf cfg fs F) []).log,
        (batchLoop cfg (prefixFor cfg fs F) F.fid (manifestPath cfg F.fid)
          (trackedPath cfg F.fid) fs (countParts fs F.fid + 1) [] 0
            (newFilesOf cfg fs F) []).fails,
        (batchLoop cfg (prefixFor cfg fs F) F.fid (manifestPath cfg F.fid)
          (trackedPath cfg F.fid) fs (countParts fs F.fid + 1) [] 0
            (newFilesOf cfg fs F) []).ok⟩ := by
    simp [processFolder, h1, h2, h3]
  rw [heq]
  refine ⟨bok, bfails, barch, by simpa using btp, bclk, bother, bdirs, ?_⟩
  exact bmt (planNewFiles_ne_nil cfg.maxBytes (newFilesOf cfg fs F)
    (by simpa [List.isEmpty_iff] using h3))

/-! ## Lemmas about part numbering -/

theorem numberParts_map_fst (cfg : Config) (pfx fid : String) :
    ∀ (bs : List (List SrcFile)) (n : Nat),
      (numberParts cfg pfx fid n bs).map Prod.fst =
        (List.range' n bs.length).map (fun k => destPath cfg (arcName pfx fid k)) := by
  intro bs
  induction bs with
  | nil => intro n; rfl
  | cons b bs ih =>
    intro n
    simp only [numberParts, List.map_cons, List.length_cons, List.range'_succ, ih]

theorem numberParts_mem_of (cfg : Config) (pfx fid : String) :
    ∀ (bs : List (List SrcFile)) (n : Nat) (b : List SrcFile), b ∈ bs →
      ∃ k, (destPath cfg (arcName pfx fid k), b.map SrcFile.rel) ∈
        numberParts cfg pfx fid n bs := by
  intro bs
  induction bs with
  | nil => intro n b hb; simp at hb
  | cons c bs ih =>
    intro n b hb
    rcases List.mem_cons.mp hb with rfl | hb
    · exact ⟨n, List.mem_cons_self _ _⟩
    · obtain ⟨k, hk⟩ := ih (n + 1) b hb
      exact ⟨k, List.mem_cons_of_mem _ hk⟩

theorem numberParts_mem_inv (cfg : Config) (pfx fid : String) :
    ∀ (bs : List (List SrcFile)) (n : Nat) (x : String × List String),
      x ∈ numberParts cfg pfx fid n bs →
      ∃ b ∈ bs, ∃ k, x = (destPath cfg (arcName pfx fid k), b.map SrcFile.rel) := by
  intro bs
  induction bs with
  | nil => intro n x hx; simp [numberParts] at hx
  | cons c bs ih =>
    intro n x hx
    rcases List.mem_cons.mp hx with rfl | hx
    · exact ⟨c, List.mem_cons_self _ _, n, rfl⟩
    · obtain ⟨b, hb, k, hk⟩ := ih (n + 1) x hx
      exact ⟨b, List.mem_cons_of_mem _ hb, k, hk⟩

/-! ## The per-folder skip-or-no-new-files condition -/

theorem skipOrEmpty_congr (cfg : Config) (au : String) (F : Folder) (fs fs' : FS)
    (h : fs'.lookupText (trackedPath cfg F.fid) = fs.lookupText (trackedPath cfg F.fid)) :
    SkipOrEmpty cfg au F fs → SkipOrEmpty cfg au F fs' := by
  intro hs
  rcases hs with hs | hs | hs
  · exact Or.inl (by rw [mtimeSkip, h]; exact hs)
  · exact Or.inr (Or.inl hs)
  · refine Or.inr (Or.inr ?_)
    rw [newFilesOf, load_tracked_files, h]
    exact hs

/-- A folder in the skip-or-empty state is left untouched by
`processFolder`, whatever the failure oracle holds. -/
theorem processFolder_of_skip (cfg : Config) (au : String) (fs : FS) (F : Folder)
    (fails : List (Option Nat)) (h : SkipOrEmpty cfg au F fs) :
    (processFolder cfg au fs F fails).fs = fs ∧
    (processFolder cfg au fs F fails).ok = true ∧
    (processFolder cfg au fs F fails).fails = fails := by
  by_cases h1 : mtimeSkip cfg fs F
  · rw [processFolder_mtimeSkip cfg au fs F fails h1]
    exact ⟨rfl, rfl, rfl⟩
  · have h1' : mtimeSkip cfg fs F = false := by simpa using h1
    by_cases h2 : pyStrLt au F.dirDate
    · rw [processFolder_dateSkip cfg au fs F fails h1' h2]
      exact ⟨rfl, rfl, rfl⟩
    · have h2' : pyStrLt au F.dirDate = false := by simpa using h2
      have h3 : newFilesOf cfg fs F = [] := by
        rcases h with h | h | h
        · rw [h1'] at h; cases h
        · rw [h2'] at h; cases h
        · exact h
      rw [processFolder_noNew cfg au fs F fails h1' h2' (by simp [h3])]
      exact ⟨rfl, rfl, rfl⟩

/-- One clean (no injected failure, non-dry) `processFolder` step:
returns normally, only the folder's own tracking and manifest files
change, the clock only advances, and a folder that was strictly older
than the starting clock ends up in the skip-or-empty state. -/
theorem processFolder_nofail (cfg : Config) (au : String) (fs : FS) (F : Folder)
    (hdry : cfg.dryRun = false) :
    (processFolder cfg au fs F []).ok = true ∧
    (processFolder cfg au fs F []).fails = [] ∧
    fs.clock ≤ (processFolder cfg au fs F []).fs.clock ∧
    (∀ p, p ≠ trackedPath cfg F.fid → p ≠ manifestPath cfg F.fid →
      (processFolder cfg au fs F []).fs.lookupText p = fs.lookupText p) ∧
    (processFolder cfg au fs F []).fs.dirs = fs.dirs ∧
    (F.mtime < fs.clock → SkipOrEmpty cfg au F (processFolder cfg au fs F []).fs) := by
  by_cases h1 : mtimeSkip cfg fs F
  · rw [processFolder_mtimeSkip cfg au fs F [] h1]
    exact ⟨rfl, rfl, le_refl _, fun p _ _ => rfl, rfl, fun _ => Or.inl h1⟩
  · have h1' : mtimeSkip cfg fs F = false := by simpa using h1
    by_cases h2 : pyStrLt au F.dirDate
    · rw [processFolder_dateSkip cfg au fs F [] h1' h2]
      exact ⟨rfl, rfl, le_refl _, fun p _ _ => rfl, rfl, fun _ => Or.inr (Or.inl h2)⟩
    · have h2' : pyStrLt au F.dirDate = false := by simpa using h2
      by_cases h3 : (newFilesOf cfg fs F).isEmpty
      · rw [processFolder_noNew cfg au fs F [] h1' h2' h3]
        exact ⟨rfl, rfl, le_refl _, fun p _ _ => rfl, rfl,
          fun _ => Or.inr (Or.inr (List.isEmpty_iff.mp h3))⟩
      · have h3' : (newFilesOf cfg fs F).isEmpty = false := by simpa using h3
        obtain ⟨rok, rfails, rarch, rtp, rclk, rother, rdirs, rtf⟩ :=
          processFolder_run cfg au fs F hdry h1' h2' h3'
        refine ⟨rok, rfails, rclk, rother, rdirs, ?_⟩
        intro hmtime
        obtain ⟨tf, htf, hmt⟩ := rtf
        refine Or.inl ?_
        rw [mtimeSkip, htf]
        simp only [decide_eq_true_eq]
        omega

/-- A clean run over a folder list whose folders are all strictly older
than the starting clock: the state only accretes (clock, unrelated
text files, dirs), and every folder ends in the skip-or-empty state. -/
theorem processFolders_nofail (cfg : Config) (au : String) (hdry : cfg.dryRun = false) :
    ∀ (folders : List Folder) (fs : FS),
      (∀ F ∈ folders, F.mtime < fs.clock) →
      List.Pairwise (fun F G => F.fid ≠ G.fid) folders →
      fs.clock ≤ (processFolders cfg au fs folders []).fs.clock ∧
      (∀ p, (∀ F ∈ folders, p ≠ trackedPath cfg F.fid ∧ p ≠ manifestPath cfg F.fid) →
        (processFolders cfg au fs folders []).fs.lookupText p = fs.lookupText p) ∧
      (∀ F ∈ folders, SkipOrEmpty cfg au F (processFolders cfg au fs folders []).fs) ∧
      (processFolders cfg au fs folders []).fs.dirs = fs.dirs := by
  intro folders
  induction folders with
  | nil =>
    intro fs _ _
    exact ⟨le_refl _, fun p _ => rfl, fun F hF => absurd hF (List.not_mem_nil F), rfl⟩
  | cons F rest ih =>
    intro fs hclk hpair
    obtain ⟨rok, rfails, rclk, rother, rdirs, restab⟩ := processFolder_nofail cfg au fs F hdry
    have heq : processFolders cfg au fs (F :: rest) [] =
        ⟨(processFolders cfg au (processFolder cfg au fs F []).fs rest
            (processFolder cfg au fs F []).fails).fs,
          (processFolder cfg au fs F []).log ++
            (processFolders cfg au (processFolder cfg au fs F []).fs rest
              (processFolder cfg au fs F []).fails).log⟩ := by
      simp [processFolders, rok]
    rw [heq, rfails] at *
    have hclk2 : ∀ G ∈ rest, G.mtime < (processFolder cfg au fs F []).fs.clock := by
      intro G hG
      have := hclk G (List.mem_cons_of_mem _ hG)
      omega
    obtain ⟨iclk, iother, istab, idirs⟩ :=
      ih (processFolder cfg au fs F []).fs hclk2 (List.pairwise_cons.mp hpair).2
    have hFne : ∀ G ∈ rest, trackedPath cfg F.fid ≠ trackedPath cfg G.fid ∧
        trackedPath cfg F.fid ≠ manifestPath cfg G.fid := by
      intro G hG
      constructor
      · intro hcontra
        exact (List.pairwise_cons.mp hpair).1 G hG (trackedPath_inj cfg _ _ hcontra)
      · exact fun hcontra => manifestPath_ne_trackedPath cfg cfg G.fid F.fid hcontra.symm
    refine ⟨by dsimp only; omega, ?_, ?_, ?_⟩
    · intro p hp
      dsimp only
      rw [iother p (fun G hG => hp G (List.mem_cons_of_mem _ hG)),
        rother p (hp F (List.mem_cons_self _ _)).1 (hp F (List.mem_cons_self _ _)).2]
    · intro G hG
      rcases List.mem_cons.mp hG with rfl | hG
      · have hFstab := restab (hclk G (List.mem_cons_self _ _))
        refine skipOrEmpty_congr cfg au G _ _ ?_ hFstab
        dsimp only
        exact iother (trackedPath cfg G.fid) hFne
      · exact istab G hG
    · dsimp only
      rw [idirs, rdirs]

/-- A run over folders that are all already in the skip-or-empty state
leaves the state untouched. -/
theorem processFolders_of_skipAll (cfg : Config) (au : String) :
    ∀ (folders : List Folder) (fs : FS) (fails : List (Option Nat)),
      (∀ F ∈ folders, SkipOrEmpty cfg au F fs) →
      (processFolders cfg au fs folders fails).fs = fs := by
  intro folders
  induction folders with
  | nil => intro fs fails _; rfl
  | cons F rest ih =>
    intro fs fails hstab
    obtain ⟨rfs, rok, rfails⟩ :=
      processFolder_of_skip cfg au fs F fails (hstab F (List.mem_cons_self _ _))
    have heq : processFolders cfg au fs (F :: rest) fails =
        ⟨(processFolders cfg au (processFolder cfg au fs F fails).fs rest
            (processFolder cfg au fs F fails).fails).fs,
          (processFolder cfg au fs F fails).log ++
            (processFolders cfg au (processFolder cfg au fs F fails).fs rest
              (processFolder cfg au fs F fails).fails).log⟩ := by
      simp [processFolders, rok]
    rw [heq, rfs, rfails]
    exact ih fs fails (fun G hG => hstab G (List.mem_cons_of_mem _ hG))

/-! ## The tracking invariant (claim C2) -/

theorem isPartOf_arcName (cfg : Config) (fid : String) (n : Nat) (pfx : String)
    (hpfx : pfx = "STATIC" ∨ pfx = "INC") :
    isPartOf cfg fid (destPath cfg (arcName pfx fid n)) = true := by
  unfold isPartOf
  rcases hpfx with rfl | rfl
  · refine Bool.or_eq_true_iff.mpr (Or.inl (List.isPrefixOf_iff_prefix.mpr ?_))
    refine ⟨(toString n ++ ".tar").data, ?_⟩
    unfold destPath arcName
    simp [String.data_append, List.append_assoc]
  · refine Bool.or_eq_true_iff.mpr (Or.inr (List.isPrefixOf_iff_prefix.mpr ?_))
    refine ⟨(toString n ++ ".tar").data, ?_⟩
    unfold destPath arcName
    simp [String.data_append, List.append_assoc]

/-- C2 (amended): when every batch write succeeds (no injected failure,
non-dry), processing a folder preserves the tracked-iff-archived
correspondence for that folder — every line appended to the tracking
file lands in a newly finalized part of that folder and vice versa —
and the engine returns normally.  The amendment: the original claim's
"append only after the part is finalized" ordering is inverted in the
code (the tracking lines are written while the tar is still being
built, before the rename), so the correspondence is only guaranteed
for runs whose batch writes all succeed; after a failed batch write a
tracked line can exist with no finalized part (see the C2
counterexample). -/
theorem c2_tracking_amended (cfg : Config) (au : String) (fs : FS) (F : Folder)
    (hdry : cfg.dryRun = false) (hinv : TrackedInv cfg F.fid fs) :
    (processFolder cfg au fs F []).ok = true ∧
    TrackedInv cfg F.fid (processFolder cfg au fs F []).fs := by
  by_cases h1 : mtimeSkip cfg fs F
  · rw [processFolder_mtimeSkip cfg au fs F [] h1]
    exact ⟨rfl, hinv⟩
  · have h1' : mtimeSkip cfg fs F = false := by simpa using h1
    by_cases h2 : pyStrLt au F.dirDate
    · rw [processFolder_dateSkip cfg au fs F [] h1' h2]
      exact ⟨rfl, hinv⟩
    · have h2' : pyStrLt au F.dirDate = false := by simpa using h2
      by_cases h3 : (newFilesOf cfg fs F).isEmpty
      · rw [processFolder_noNew cfg au fs F [] h1' h2' h3]
        exact ⟨rfl, hinv⟩
      · have h3' : (newFilesOf cfg fs F).isEmpty = false := by simpa using h3
        obtain ⟨rok, rfails, rarch, rtp, rclk, rother, rdirs, rtf⟩ :=
          processFolder_run cfg au fs F hdry h1' h2' h3'
        refine ⟨rok, ?_⟩
        intro l
        rw [rtp, rarch]
        have hpfx : prefixFor cfg fs F = "STATIC" ∨ prefixFor cfg fs F = "INC" := by
          unfold prefixFor
          split <;> simp
        have hflat : (planNewFiles cfg.maxBytes (newFilesOf cfg fs F)).flatten =
            newFilesOf cfg fs F := by
          simpa [planNewFiles] using
            plan_flatten cfg.maxBytes (newFilesOf cfg fs F) [] 0
        constructor
        · intro hl
          rcases List.mem_append.mp hl with hl | hl
          · obtain ⟨a, ha, hpart, hla⟩ := (hinv l).mp hl
            exact ⟨a, List.mem_append_left _ ha, hpart, hla⟩
          · obtain ⟨f, hf, rfl⟩ := List.mem_map.mp hl
            rw [← hflat] at hf
            obtain ⟨b, hb, hfb⟩ := List.mem_flatten.mp hf
            obtain ⟨k, hk⟩ := numberParts_mem_of cfg (prefixFor cfg fs F) F.fid
              (planNewFiles cfg.maxBytes (newFilesOf cfg fs F)) (countParts fs F.fid + 1) b hb
            refine ⟨(destPath cfg (arcName (prefixFor cfg fs F) F.fid k), b.map SrcFile.rel),
              List.mem_append_right _ hk, ?_, List.mem_map_of_mem _ hfb⟩
            exact isPartOf_arcName cfg F.fid k (prefixFor cfg fs F) hpfx
        · rintro ⟨a, ha, hpart, hla⟩
          rcases List.mem_append.mp ha with ha | ha
          · exact List.mem_append_left _ ((hinv l).mpr ⟨a, ha, hpart, hla⟩)
          · obtain ⟨b, hb, k, rfl⟩ := numberParts_mem_inv cfg (prefixFor cfg fs F) F.fid
              (planNewFiles cfg.maxBytes (newFilesOf cfg fs F)) (countParts fs F.fid + 1) a ha
            refine List.mem_append_right _ ?_
            obtain ⟨f, hf, rfl⟩ := List.mem_map.mp hla
            refine List.mem_map_of_mem _ ?_
            rw [← hflat]
            exact List.mem_flatten.mpr ⟨b, hb, hf⟩

/-! ## Remaining helpers -/

theorem load_eq_filter (fs : FS) (p : String) :
    load_tracked_files fs p =
      (textLines fs p).filter (fun l => !(l == "") && !(strStartsWith l "---")) := by
  unfold load_tracked_files textLines
  cases fs.lookupText p <;> simp

theorem strTake2_fmtM (m : Nat) : strTake2 (fmtM m) = fmtM m := rfl

/-- A dry `processFolder` step changes nothing, continues, and logs
only scan notices and would-be parts. -/
theorem processFolder_dry (cfg : Config) (au : String) (fs : FS) (F : Folder)
    (fails : List (Option Nat)) (hdry : cfg.dryRun = true) :
    (processFolder cfg au fs F fails).fs = fs ∧
    (processFolder cfg au fs F fails).ok = true ∧
    (∀ e ∈ (processFolder cfg au fs F fails).log,
      (∃ fid, e = .scanning fid) ∨ (∃ nm c, e = .dryRunPart nm c)) := by
  by_cases h1 : mtimeSkip cfg fs F
  · rw [processFolder_mtimeSkip cfg au fs F fails h1]
    exact ⟨rfl, rfl, by simp⟩
  · have h1' : mtimeSkip cfg fs F = false := by simpa using h1
    by_cases h2 : pyStrLt au F.dirDate
    · rw [processFolder_dateSkip cfg au fs F fails h1' h2]
      exact ⟨rfl, rfl, by simp⟩
    · have h2' : pyStrLt au F.dirDate = false := by simpa using h2
      by_cases h3 : (newFilesOf cfg fs F).isEmpty
      · rw [processFolder_noNew cfg au fs F fails h1' h2' h3]
        refine ⟨rfl, rfl, ?_⟩
        intro e he
        simp only [List.mem_singleton] at he
        exact Or.inl ⟨F.fid, he⟩
      · have h3' : (newFilesOf cfg fs F).isEmpty = false := by simpa using h3
        obtain ⟨bfs, bok, blog⟩ := batchLoop_dry cfg (prefixFor cfg fs F) F.fid
          (manifestPath cfg F.fid) (trackedPath cfg F.fid) hdry (newFilesOf cfg fs F) [] 0
          fs (countParts fs F.fid + 1) fails
        have heq : processFolder cfg au fs F fails =
            ⟨(batchLoop cfg (prefixFor cfg fs F) F.fid (manifestPath cfg F.fid)
                (trackedPath cfg F.fid) fs (countParts fs F.fid + 1) [] 0
                  (newFilesOf cfg fs F) fails).fs,
              .scanning F.fid :: (batchLoop cfg (prefixFor cfg fs F) F.fid
                (manifestPath cfg F.fid) (trackedPath cfg F.fid) fs (countParts fs F.fid + 1)
                  [] 0 (newFilesOf cfg fs F) fails).log,
              (batchLoop cfg (prefixFor cfg fs F) F.fid (manifestPath cfg F.fid)
                (trackedPath cfg F.fid) fs (countParts fs F.fid + 1) [] 0
                  (newFilesOf cfg fs F) fails).fails,
              (batchLoop cfg (prefixFor cfg fs F) F.fid (manifestPath cfg F.fid)
                (trackedPath cfg F.fid) fs (countParts fs F.fid + 1) [] 0
                  (newFilesOf cfg fs F) fails).ok⟩ := by
          simp [processFolder, h1', h2', h3']
        rw [heq]
        refine ⟨bfs, bok, ?_⟩
        intro e he
        rcases List.mem_cons.mp he with rfl | he
        · exact Or.inl ⟨F.fid, rfl⟩
        · exact Or.inr (blog e he)

/-- A dry folder loop changes nothing and logs only scan notices and
would-be parts. -/
theorem processFolders_dry (cfg : Config) (au : String) (hdry : cfg.dryRun = true) :
    ∀ (folders : List Folder) (fs : FS) (fails : List (Option Nat)),
      (processFolders cfg au fs folders fails).fs = fs ∧
      (∀ e ∈ (processFolders cfg au fs folders fails).log,
        (∃ fid, e = .scanning fid) ∨ (∃ nm c, e = .dryRunPart nm c)) := by
  intro folders
  induction folders with
  | nil => intro fs fails; exact ⟨rfl, by simp [processFolders]⟩
  | cons F rest ih =>
    intro fs fails
    obtain ⟨rfs, rok, rlog⟩ := processFolder_dry cfg au fs F fails hdry
    have heq : processFolders cfg au fs (F :: rest) fails =
        ⟨(processFolders cfg au (processFolder cfg au fs F fails).fs rest
            (processFolder cfg au fs F fails).fails).fs,
          (processFolder cfg au fs F fails).log ++
            (processFolders cfg au (processFolder cfg au fs F fails).fs rest
              (processFolder cfg au fs F fails).fails).log⟩ := by
      simp [processFolders, rok]
    rw [heq, rfs]
    obtain ⟨ifs, ilog⟩ := ih fs (processFolder cfg au fs F fails).fails
    refine ⟨ifs, ?_⟩
    intro e he
    rcases List.mem_append.mp he with he | he
    · exact rlog e he
    · exact ilog e he

/-! ## Claims -/

/-- C3: for every configuration the entry point `main` never invokes
`process_archiving` — the call at line 208 is commented out — so a
complete program run scans no folders, creates no archives, mutates no
tracking or manifest state, and still logs that the archiving process
finished successfully. -/
theorem c3_main_never_processes (cfg : Config) (today : Nat × Nat) (folders : List Folder)
    (fs : FS) : main true cfg today folders fs = ⟨fs, [.finished]⟩ := rfl

/-- C10: when the folder's tracking file exists and the folder's
on-disk mtime is strictly older than the tracking file's mtime, the
engine skips the folder entirely: no scan notice is logged, no archive
is created, and no state changes. -/
theorem c10_change_detection_skip (cfg : Config) (au : String) (fs : FS) (F : Folder)
    (fails : List (Option Nat)) (tf : TextFile)
    (hex : fs.lookupText (trackedPath cfg F.fid) = some tf)
    (hmt : F.mtime < tf.mtime) :
    processFolder cfg au fs F fails = ⟨fs, [], fails, true⟩ := by
  apply processFolder_mtimeSkip
  rw [mtimeSkip, hex]
  simpa using hmt

theorem c10_change_detection_skip_witness :
    processFolder ⟨1, "dest", false⟩ "2023-01"
      ⟨[("dest/2023-02.tracked.txt", ⟨["2023/02/a.jpg"], 9⟩)], [], [], [], 10⟩
      ⟨"2023", "02", 5, [⟨"2023/02/a.jpg", 3⟩, ⟨"2023/02/b.jpg", 4⟩]⟩ [] =
      ⟨⟨[("dest/2023-02.tracked.txt", ⟨["2023/02/a.jpg"], 9⟩)], [], [], [], 10⟩, [], [], true⟩ :=
  c10_change_detection_skip ⟨1, "dest", false⟩ "2023-01"
    ⟨[("dest/2023-02.tracked.txt", ⟨["2023/02/a.jpg"], 9⟩)], [], [], [], 10⟩
    ⟨"2023", "02", 5, [⟨"2023/02/a.jpg", 3⟩, ⟨"2023/02/b.jpg", 4⟩]⟩ []
    ⟨["2023/02/a.jpg"], 9⟩ (by decide) (by decide)

/-- C6: a year/month folder whose identifier does not resolve to a
year-month strictly before the current calendar month — in particular
one equal to the current month — is always skipped, whatever its
contents: the engine leaves the state untouched and logs nothing for
it.  `fmtYM (lastMonth (y, m))` is the `archive_until` string the
engine computes for a run on `(y, m)`. -/
theorem c6_date_boundary (cfg : Config) (fs : FS) (F : Folder) (fails : List (Option Nat))
    (y m yF mF : Nat)
    (hyr : F.yearName = fmtY yF) (hmr : F.monthName = fmtM mF)
    (hyF : yF < 10000) (hy1 : 1 ≤ y) (hy : y < 10000)
    (hm1 : 1 ≤ m) (hm : m ≤ 12) (hmF1 : 1 ≤ mF) (hmF : mF ≤ 12)
    (hnot : ¬ (yF < y ∨ (yF = y ∧ mF < m))) :
    processFolder cfg (fmtYM (lastMonth (y, m))) fs F fails = ⟨fs, [], fails, true⟩ := by
  by_cases h1 : mtimeSkip cfg fs F
  · exact processFolder_mtimeSkip cfg _ fs F fails h1
  · have h1' : mtimeSkip cfg fs F = false := by simpa using h1
    refine processFolder_dateSkip cfg _ fs F fails h1' ?_
    have hdd : F.dirDate = fmtY yF ++ "-" ++ fmtM mF := by
      unfold Folder.dirDate
      rw [hyr, hmr, strTake2_fmtM]
    rw [hdd]
    by_cases hm2 : m = 1
    · subst hm2
      have hlm : lastMonth (y, 1) = (y - 1, 12) := rfl
      rw [hlm]
      unfold fmtYM
      exact (pyStrLt_dates (y - 1) 12 yF mF (by omega) hyF (by omega) (by omega)).mpr
        (by omega)
    · have hlm : lastMonth (y, m) = (y, m - 1) := by
        unfold lastMonth
        simp [hm2]
      rw [hlm]
      unfold fmtYM
      exact (pyStrLt_dates y (m - 1) yF mF (by omega) hyF (by omega) (by omega)).mpr
        (by omega)

theorem c6_date_boundary_witness :
    processFolder ⟨1, "dest", false⟩ (fmtYM (lastMonth (2023, 2)))
      ⟨[], [], [], [], 0⟩ ⟨fmtY 2023, fmtM 2, 7, [⟨"2023/02/a.jpg", 3⟩]⟩ [] =
      ⟨⟨[], [], [], [], 0⟩, [], [], true⟩ :=
  c6_date_boundary ⟨1, "dest", false⟩ ⟨[], [], [], [], 0⟩
    ⟨fmtY 2023, fmtM 2, 7, [⟨"2023/02/a.jpg", 3⟩]⟩ [] 2023 2 2023 2 rfl rfl
    (by decide) (by decide) (by decide) (by decide) (by decide) (by decide) (by decide)
    (by omega)

/-- C4 counterexample: with ceiling 10 bytes, a zero-byte file followed
by a 100-byte file ends up in one two-file batch of total size 100,
which exceeds the ceiling without being a single oversized file — the
loop tests `current_size > 0`, not batch non-emptiness, so the batch
holding the zero-byte file is not closed before the oversized file is
added.  This refutes both the single-oversized-file clause and the
closes-exactly-when-non-empty-and-overflowing clause of the claim. -/
theorem c4_counterexample :
    planNewFiles 10 [⟨"2024/05/a", 0⟩, ⟨"2024/05/b", 100⟩] =
      [[⟨"2024/05/a", 0⟩, ⟨"2024/05/b", 100⟩]] ∧
    10 < sizeSum [⟨"2024/05/a", 0⟩, ⟨"2024/05/b", 100⟩] ∧
    ([⟨"2024/05/a", 0⟩, ⟨"2024/05/b", 100⟩] : List SrcFile).length ≠ 1 := by
  decide

/-- C4 (amended): the Batching Planner partitions the ordered new-files
list, in order, into non-empty batches; a batch is closed exactly when
its running byte total is positive and adding the next candidate would
exceed the ceiling (so every closed batch has positive total and
overflows with its successor's first file); and every batch whose
total exceeds the ceiling is a single file larger than the ceiling,
possibly preceded by zero-byte files (the amendment: the original
claim's "non-empty batch" trigger and "exactly one file" shape fail
when zero-byte files precede an oversized one). -/
theorem c4_batching_amended (maxB : Nat) (files : List SrcFile) :
    (planNewFiles maxB files).flatten = files ∧
    (∀ b ∈ planNewFiles maxB files, b ≠ []) ∧
    (∀ b ∈ planNewFiles maxB files, maxB < sizeSum b →
      sizeSum b.dropLast = 0 ∧ ∃ f, b.getLast? = some f ∧ maxB < f.size) ∧
    List.Chain' (fun b b' => 0 < sizeSum b ∧ maxB < sizeSum b + headSize b')
      (planNewFiles maxB files) := by
  refine ⟨?_, ?_, ?_, ?_⟩
  · simpa using plan_flatten maxB files [] 0
  · exact plan_nonempty maxB files [] 0 (by simp)
  · intro b hb hover
    have hd : sizeSum b.dropLast = 0 :=
      plan_oversize maxB files [] 0 rfl (by simp) b hb hover
    have hne : b ≠ [] := plan_nonempty maxB files [] 0 (by simp) b hb
    obtain ⟨l, f, rfl⟩ : ∃ l f, b = l ++ [f] :=
      ⟨b.dropLast, b.getLast hne, (List.dropLast_append_getLast hne).symm⟩
    rw [List.dropLast_concat] at hd
    refine ⟨by rw [List.dropLast_concat]; exact hd, f, List.getLast?_concat l, ?_⟩
    have hs : sizeSum (l ++ [f]) = sizeSum l + f.size := by simp
    omega
  · exact plan_chain maxB files [] 0 rfl

theorem c4_batching_amended_witness :
    ([⟨"2024/06/a", 3⟩] : List SrcFile) ≠ [] :=
  (c4_batching_amended 5 [⟨"2024/06/a", 3⟩, ⟨"2024/06/b", 4⟩]).2.1
    [⟨"2024/06/a", 3⟩] (by decide)

/-- C1 counterexample: a failure while the second file of a two-file
batch is being added to the tar leaves the error propagated, the
temporary file deleted and no file at the final archive path — but a
tracking entry (and matching manifest lines) for the first file of the
batch IS committed, refuting the claim that on failure no manifest or
tracking entry for any file of the batch is committed. -/
theorem c1_counterexample :
    (create_tar_part ⟨[], [], [], [], 0⟩ "dest/STATIC_2025-03.part1.tar"
      [⟨"2025/03/a.jpg", 5⟩, ⟨"2025/03/b.jpg", 6⟩] "dest/2025-03.contents.txt"
      "dest/2025-03.tracked.txt" false (some 1)).ok = false ∧
    textLines (create_tar_part ⟨[], [], [], [], 0⟩ "dest/STATIC_2025-03.part1.tar"
      [⟨"2025/03/a.jpg", 5⟩, ⟨"2025/03/b.jpg", 6⟩] "dest/2025-03.contents.txt"
      "dest/2025-03.tracked.txt" false (some 1)).fs "dest/2025-03.tracked.txt" =
        ["2025/03/a.jpg"] ∧
    (create_tar_part ⟨[], [], [], [], 0⟩ "dest/STATIC_2025-03.part1.tar"
      [⟨"2025/03/a.jpg", 5⟩, ⟨"2025/03/b.jpg", 6⟩] "dest/2025-03.contents.txt"
      "dest/2025-03.tracked.txt" false (some 1)).fs.archives = [] ∧
    (create_tar_part ⟨[], [], [], [], 0⟩ "dest/STATIC_2025-03.part1.tar"
      [⟨"2025/03/a.jpg", 5⟩, ⟨"2025/03/b.jpg", 6⟩] "dest/2025-03.contents.txt"
      "dest/2025-03.tracked.txt" false (some 1)).fs.temps = [] := by
  decide

/-- C1 (amended): a non-dry Part Writer call on a batch.  On a failure
while the k-th file is added to the tar: the error propagates, the
temporary file is deleted, no file exists at the final archive path —
but the manifest keeps its header and the first k member lines, and
the tracking file keeps the first k member lines (the amendment: the
interleaved appends before the failure point stay committed, not
nothing).  On success: the part is finalized and the manifest and
tracking entries for exactly the batch are committed before the call
returns. -/
theorem c1_part_writer_amended (fs : FS) (ap : String) (files : List SrcFile)
    (mp tp : String) (failAt : Option Nat) (hmt : mp ≠ tp)
    (htmp : ¬ tmpPath ap ∈ fs.temps) (hap : ∀ c, (ap, c) ∉ fs.archives) :
    (∀ k, failAt = some k → k < files.length →
      (create_tar_part fs ap files mp tp false failAt).ok = false ∧
      (create_tar_part fs ap files mp tp false failAt).fs.temps = fs.temps ∧
      (∀ c, (ap, c) ∉ (create_tar_part fs ap files mp tp false failAt).fs.archives) ∧
      textLines (create_tar_part fs ap files mp tp false failAt).fs tp =
        textLines fs tp ++ (files.take k).map SrcFile.rel ∧
      textLines (create_tar_part fs ap files mp tp false failAt).fs mp =
        textLines fs mp ++ (manifestHeaderLines ap ++ (files.take k).map SrcFile.rel)) ∧
    (failAt = none →
      (create_tar_part fs ap files mp tp false failAt).ok = true ∧
      (create_tar_part fs ap files mp tp false failAt).fs.temps = fs.temps ∧
      (create_tar_part fs ap files mp tp false failAt).fs.archives =
        fs.archives ++ [(ap, files.map SrcFile.rel)] ∧
      textLines (create_tar_part fs ap files mp tp false failAt).fs tp =
        textLines fs tp ++ files.map SrcFile.rel ∧
      textLines (create_tar_part fs ap files mp tp false failAt).fs mp =
        textLines fs mp ++ (manifestHeaderLines ap ++ files.map SrcFile.rel)) := by
  have hcont : fs.temps.contains (tmpPath ap) = false := by simpa using htmp
  have htempseq : (if fs.temps.contains (tmpPath ap) then fs.temps
      else tmpPath ap :: fs.temps).erase (tmpPath ap) = fs.temps := by
    rw [hcont]
    simp [List.erase_cons_head]
  constructor
  · rintro k rfl hk
    obtain ⟨sok, slog, sarch, stp, smp, sother, sclk, sdirs, stmp⟩ :=
      create_some_spec fs ap files mp tp k hmt hk
    refine ⟨sok, by rw [stmp, htempseq], ?_, ?_, ?_⟩
    · intro c
      rw [sarch]
      exact hap c
    · rw [textLines_of_lookup _ _ _ stp]
    · rw [textLines_of_lookup _ _ _ smp]
  · rintro rfl
    obtain ⟨sok, slog, sarch, stp, smp, sother, sclk, sdirs, stmp⟩ :=
      create_none_spec fs ap files mp tp hmt
    refine ⟨sok, by rw [stmp, htempseq], sarch, ?_, ?_⟩
    · rw [textLines_of_lookup _ _ _ stp]
    · rw [textLines_of_lookup _ _ _ smp]

theorem c1_part_writer_amended_witness :
    (create_tar_part ⟨[], [], [], [], 0⟩ "dest/STATIC_2024-03.part1.tar"
      [⟨"2024/03/a.jpg", 5⟩, ⟨"2024/03/b.jpg", 6⟩] "dest/2024-03.contents.txt"
      "dest/2024-03.tracked.txt" false (some 1)).ok = false ∧
    textLines (create_tar_part ⟨[], [], [], [], 0⟩ "dest/STATIC_2024-03.part1.tar"
      [⟨"2024/03/a.jpg", 5⟩, ⟨"2024/03/b.jpg", 6⟩] "dest/2024-03.contents.txt"
      "dest/2024-03.tracked.txt" false (some 1)).fs "dest/2024-03.tracked.txt" =
      textLines (⟨[], [], [], [], 0⟩ : FS) "dest/2024-03.tracked.txt" ++
        (([⟨"2024/03/a.jpg", 5⟩, ⟨"2024/03/b.jpg", 6⟩] : List SrcFile).take 1).map
          SrcFile.rel := by
  have h := (c1_part_writer_amended ⟨[], [], [], [], 0⟩ "dest/STATIC_2024-03.part1.tar"
    [⟨"2024/03/a.jpg", 5⟩, ⟨"2024/03/b.jpg", 6⟩] "dest/2024-03.contents.txt"
    "dest/2024-03.tracked.txt" (some 1) (by decide) (by decide) (by simp)).1 1 rfl
    (by decide)
  exact ⟨h.1, h.2.2.2.1⟩

/-- C8: with the dry-run flag set, a full engine run mutates nothing —
no directories, archives, temporaries, tracking or manifest files —
and the only events the run logs are scan notices and per-part
dry-run reports carrying the archive name and file count. -/
theorem c8_dry_run (cfg : Config) (today : Nat × Nat) (folders : List Folder) (fs : FS)
    (fails : List (Option Nat)) (hdry : cfg.dryRun = true) :
    (processArchiving cfg today folders fs fails).fs = fs ∧
    (∀ e ∈ (processArchiving cfg today folders fs fails).log,
      (∃ fid, e = .scanning fid) ∨ (∃ nm c, e = .dryRunPart nm c)) := by
  unfold processArchiving
  rw [hdry]
  exact processFolders_dry cfg (fmtYM (lastMonth today)) hdry folders fs fails

theorem c8_dry_run_witness :
    (processArchiving ⟨1, "dest", true⟩ (2023, 3)
      [⟨"2023", "01", 5, [⟨"2023/01/a.jpg", 500⟩]⟩] ⟨[], [], [], [], 0⟩ []).fs =
      ⟨[], [], [], [], 0⟩ ∧
    (∀ e ∈ (processArchiving ⟨1, "dest", true⟩ (2023, 3)
        [⟨"2023", "01", 5, [⟨"2023/01/a.jpg", 500⟩]⟩] ⟨[], [], [], [], 0⟩ []).log,
      (∃ fid, e = .scanning fid) ∨ (∃ nm c, e = .dryRunPart nm c)) :=
  c8_dry_run ⟨1, "dest", true⟩ (2023, 3) [⟨"2023", "01", 5, [⟨"2023/01/a.jpg", 500⟩]⟩]
    ⟨[], [], [], [], 0⟩ [] rfl

/-- C2 counterexample: a run whose only batch write fails while the
second file is added leaves "2023/01/a.jpg" in the folder's tracking
file although no finalized archive part exists at all — the tracking
append happened during tar construction, before the part could be
finalized, refuting both the iff and the archive-then-track ordering
of the claim. -/
theorem c2_counterexample :
    "2023/01/a.jpg" ∈ textLines (processArchiving ⟨1, "dest", false⟩ (2023, 2)
      [⟨"2023", "01", 5, [⟨"2023/01/a.jpg", 500⟩, ⟨"2023/01/b.jpg", 700⟩]⟩]
      ⟨[], [], [], [], 10⟩ [some 1]).fs "dest/2023-01.tracked.txt" ∧
    (processArchiving ⟨1, "dest", false⟩ (2023, 2)
      [⟨"2023", "01", 5, [⟨"2023/01/a.jpg", 500⟩, ⟨"2023/01/b.jpg", 700⟩]⟩]
      ⟨[], [], [], [], 10⟩ [some 1]).fs.archives = [] := by
  decide

theorem c2_tracking_amended_witness :
    (processFolder ⟨1, "dest", false⟩ "2022-12" ⟨[], [], [], [], 0⟩
      ⟨"2023", "01", 5, [⟨"2023/01/a.jpg", 7⟩]⟩ []).ok = true ∧
    TrackedInv ⟨1, "dest", false⟩ (Folder.fid ⟨"2023", "01", 5, [⟨"2023/01/a.jpg", 7⟩]⟩)
      (processFolder ⟨1, "dest", false⟩ "2022-12" ⟨[], [], [], [], 0⟩
        ⟨"2023", "01", 5, [⟨"2023/01/a.jpg", 7⟩]⟩ []).fs :=
  c2_tracking_amended ⟨1, "dest", false⟩ "2022-12" ⟨[], [], [], [], 0⟩
    ⟨"2023", "01", 5, [⟨"2023/01/a.jpg", 7⟩]⟩ rfl
    (by intro l; simp [TrackedInv, textLines, FS.lookupText, List.lookup])

/-- C5: for a folder that reaches the batching stage in a clean
non-dry run, the finalized parts are exactly the planned batches, and
their names carry the consecutive numbers `count + 1, count + 2, ...`,
where `count` is the number of finalized `.tar` parts already in the
destination whose names match the folder's identifier (the engine's
glob `*{folder_id}.part*.tar`). -/
theorem c5_part_numbering (cfg : Config) (au : String) (fs : FS) (F : Folder)
    (hdry : cfg.dryRun = false) (h1 : mtimeSkip cfg fs F = false)
    (h2 : pyStrLt au F.dirDate = false) (h3 : (newFilesOf cfg fs F).isEmpty = false) :
    (processFolder cfg au fs F []).fs.archives =
      fs.archives ++ numberParts cfg (prefixFor cfg fs F) F.fid (countParts fs F.fid + 1)
        (planNewFiles cfg.maxBytes (newFilesOf cfg fs F)) ∧
    (numberParts cfg (prefixFor cfg fs F) F.fid (countParts fs F.fid + 1)
        (planNewFiles cfg.maxBytes (newFilesOf cfg fs F))).map Prod.fst =
      (List.range' (countParts fs F.fid + 1)
        (planNewFiles cfg.maxBytes (newFilesOf cfg fs F)).length).map
        (fun k => destPath cfg (arcName (prefixFor cfg fs F) F.fid k)) := by
  obtain ⟨rok, rfails, rarch, rtp, rclk, rother, rdirs, rtf⟩ :=
    processFolder_run cfg au fs F hdry h1 h2 h3
  exact ⟨rarch, numberParts_map_fst cfg (prefixFor cfg fs F) F.fid _ _⟩

theorem c5_part_numbering_witness :
    (processFolder ⟨1, "dest", false⟩ "2022-07"
      ⟨[("dest/2022-07.tracked.txt", ⟨["2022/07/x.jpg"], 3⟩)],
        [("dest/STATIC_2022-07.part1.tar", ["2022/07/x.jpg"])], [], ["dest"], 10⟩
      ⟨"2022", "07", 5, [⟨"2022/07/x.jpg", 10⟩, ⟨"2022/07/y.jpg", 20⟩]⟩ []).fs.archives =
      [("dest/STATIC_2022-07.part1.tar", ["2022/07/x.jpg"])] ++
        numberParts ⟨1, "dest", false⟩
          (prefixFor ⟨1, "dest", false⟩
            ⟨[("dest/2022-07.tracked.txt", ⟨["2022/07/x.jpg"], 3⟩)],
              [("dest/STATIC_2022-07.part1.tar", ["2022/07/x.jpg"])], [], ["dest"], 10⟩
            ⟨"2022", "07", 5, [⟨"2022/07/x.jpg", 10⟩, ⟨"2022/07/y.jpg", 20⟩]⟩)
          (Folder.fid ⟨"2022", "07", 5, [⟨"2022/07/x.jpg", 10⟩, ⟨"2022/07/y.jpg", 20⟩]⟩)
          (countParts
            ⟨[("dest/2022-07.tracked.txt", ⟨["2022/07/x.jpg"], 3⟩)],
              [("dest/STATIC_2022-07.part1.tar", ["2022/07/x.jpg"])], [], ["dest"], 10⟩
            (Folder.fid ⟨"2022", "07", 5,
              [⟨"2022/07/x.jpg", 10⟩, ⟨"2022/07/y.jpg", 20⟩]⟩) + 1)
          (planNewFiles (Config.maxBytes ⟨1, "dest", false⟩)
            (newFilesOf ⟨1, "dest", false⟩
              ⟨[("dest/2022-07.tracked.txt", ⟨["2022/07/x.jpg"], 3⟩)],
                [("dest/STATIC_2022-07.part1.tar", ["2022/07/x.jpg"])], [], ["dest"], 10⟩
              ⟨"2022", "07", 5, [⟨"2022/07/x.jpg", 10⟩, ⟨"2022/07/y.jpg", 20⟩]⟩)) :=
  (c5_part_numbering ⟨1, "dest", false⟩ "2022-07"
    ⟨[("dest/2022-07.tracked.txt", ⟨["2022/07/x.jpg"], 3⟩)],
      [("dest/STATIC_2022-07.part1.tar", ["2022/07/x.jpg"])], [], ["dest"], 10⟩
    ⟨"2022", "07", 5, [⟨"2022/07/x.jpg", 10⟩, ⟨"2022/07/y.jpg", 20⟩]⟩ rfl
    (by decide) (by decide) (by decide)).1

/-- C7: for a folder that reaches the batching stage in a clean
non-dry run, every finalized part of the run is named with the one
prefix chosen for the run; that prefix is `STATIC` exactly when the
folder's tracking store was empty before the run (so a previously
untracked folder's first archive is `STATIC`); and after the run the
tracking store is non-empty, so any later archiving run for the same
folder is classified `INC`. -/
theorem c7_classification (cfg : Config) (au : String) (fs : FS) (F : Folder)
    (hdry : cfg.dryRun = false) (h1 : mtimeSkip cfg fs F = false)
    (h2 : pyStrLt au F.dirDate = false) (h3 : (newFilesOf cfg fs F).isEmpty = false)
    (hwf : ∀ f ∈ newFilesOf cfg fs F,
      (!(f.rel == "") && !(strStartsWith f.rel "---")) = true) :
    (∀ a ∈ numberParts cfg (prefixFor cfg fs F) F.fid (countParts fs F.fid + 1)
        (planNewFiles cfg.maxBytes (newFilesOf cfg fs F)),
      ∃ k, a.1 = destPath cfg (arcName (prefixFor cfg fs F) F.fid k)) ∧
    (processFolder cfg au fs F []).fs.archives =
      fs.archives ++ numberParts cfg (prefixFor cfg fs F) F.fid (countParts fs F.fid + 1)
        (planNewFiles cfg.maxBytes (newFilesOf cfg fs F)) ∧
    (prefixFor cfg fs F = "STATIC" ↔
      load_tracked_files fs (trackedPath cfg F.fid) = []) ∧
    prefixFor cfg (processFolder cfg au fs F []).fs F = "INC" := by
  obtain ⟨rok, rfails, rarch, rtp, rclk, rother, rdirs, rtf⟩ :=
    processFolder_run cfg au fs F hdry h1 h2 h3
  refine ⟨?_, rarch, ?_, ?_⟩
  · intro a ha
    obtain ⟨b, hb, k, rfl⟩ := numberParts_mem_inv cfg (prefixFor cfg fs F) F.fid _ _ a ha
    exact ⟨k, rfl⟩
  · unfold prefixFor
    split
    · next h =>
      simp only [List.isEmpty_iff] at h
      simp [h]
    · next h =>
      simp only [List.isEmpty_iff] at h
      simp only [show ("INC" : String) ≠ "STATIC" by decide, false_iff]
      exact h
  · have hload' : load_tracked_files (processFolder cfg au fs F []).fs
        (trackedPath cfg F.fid) =
        load_tracked_files fs (trackedPath cfg F.fid) ++
          (newFilesOf cfg fs F).map SrcFile.rel := by
      rw [load_eq_filter, load_eq_filter, rtp, List.filter_append]
      congr 1
      rw [List.filter_eq_self.mpr]
      intro x hx
      obtain ⟨f, hf, rfl⟩ := List.mem_map.mp hx
      exact hwf f hf
    have hrels : (newFilesOf cfg fs F).map SrcFile.rel ≠ [] := by
      have : newFilesOf cfg fs F ≠ [] := by simpa [List.isEmpty_iff] using h3
      simpa using this
    unfold prefixFor
    rw [hload', if_neg]
    simp only [List.isEmpty_iff, List.append_eq_nil, not_and]
    exact fun _ => hrels

theorem c7_classification_witness :
    (∀ a ∈ numberParts ⟨1, "dest", false⟩
        (prefixFor ⟨1, "dest", false⟩ ⟨[], [], [], ["dest"], 10⟩
          ⟨"2021", "04", 5, [⟨"2021/04/a.jpg", 7⟩]⟩)
        (Folder.fid ⟨"2021", "04", 5, [⟨"2021/04/a.jpg", 7⟩]⟩)
        (countParts ⟨[], [], [], ["dest"], 10⟩
          (Folder.fid ⟨"2021", "04", 5, [⟨"2021/04/a.jpg", 7⟩]⟩) + 1)
        (planNewFiles (Config.maxBytes ⟨1, "dest", false⟩)
          (newFilesOf ⟨1, "dest", false⟩ ⟨[], [], [], ["dest"], 10⟩
            ⟨"2021", "04", 5, [⟨"2021/04/a.jpg", 7⟩]⟩)),
      ∃ k, a.1 = destPath ⟨1, "dest", false⟩
        (arcName (prefixFor ⟨1, "dest", false⟩ ⟨[], [], [], ["dest"], 10⟩
          ⟨"2021", "04", 5, [⟨"2021/04/a.jpg", 7⟩]⟩)
          (Folder.fid ⟨"2021", "04", 5, [⟨"2021/04/a.jpg", 7⟩]⟩) k)) ∧
    (processFolder ⟨1, "dest", false⟩ "2021-04" ⟨[], [], [], ["dest"], 10⟩
      ⟨"2021", "04", 5, [⟨"2021/04/a.jpg", 7⟩]⟩ []).fs.archives =
      ([] : List (String × List String)) ++ numberParts ⟨1, "dest", false⟩
        (prefixFor ⟨1, "dest", false⟩ ⟨[], [], [], ["dest"], 10⟩
          ⟨"2021", "04", 5, [⟨"2021/04/a.jpg", 7⟩]⟩)
        (Folder.fid ⟨"2021", "04", 5, [⟨"2021/04/a.jpg", 7⟩]⟩)
        (countParts ⟨[], [], [], ["dest"], 10⟩
          (Folder.fid ⟨"2021", "04", 5, [⟨"2021/04/a.jpg", 7⟩]⟩) + 1)
        (planNewFiles (Config.maxBytes ⟨1, "dest", false⟩)
          (newFilesOf ⟨1, "dest", false⟩ ⟨[], [], [], ["dest"], 10⟩
            ⟨"2021", "04", 5, [⟨"2021/04/a.jpg", 7⟩]⟩)) ∧
    (prefixFor ⟨1, "dest", false⟩ ⟨[], [], [], ["dest"], 10⟩
        ⟨"2021", "04", 5, [⟨"2021/04/a.jpg", 7⟩]⟩ = "STATIC" ↔
      load_tracked_files ⟨[], [], [], ["dest"], 10⟩
        (trackedPath ⟨1, "dest", false⟩
          (Folder.fid ⟨"2021", "04", 5, [⟨"2021/04/a.jpg", 7⟩]⟩)) = []) ∧
    prefixFor ⟨1, "dest", false⟩
      (processFolder ⟨1, "dest", false⟩ "2021-04" ⟨[], [], [], ["dest"], 10⟩
        ⟨"2021", "04", 5, [⟨"2021/04/a.jpg", 7⟩]⟩ []).fs
      ⟨"2021", "04", 5, [⟨"2021/04/a.jpg", 7⟩]⟩ = "INC" :=
  c7_classification ⟨1, "dest", false⟩ "2021-04" ⟨[], [], [], ["dest"], 10⟩
    ⟨"2021", "04", 5, [⟨"2021/04/a.jpg", 7⟩]⟩ rfl (by decide) (by decide) (by decide)
    (by decide)

/-- C9: running the engine twice in succession (same configuration,
same date, no filesystem changes between the runs, no failures, every
source folder older than the run's starting clock, distinct folder
identifiers) produces no change at all on the second run — in
particular no new archive parts — and after the first run every folder
is either excluded by the date boundary, skipped by the
change-detection check, or has an empty new-files list. -/
theorem c9_idempotent (cfg : Config) (today : Nat × Nat) (folders : List Folder) (fs : FS)
    (hdry : cfg.dryRun = false)
    (hclk : ∀ F ∈ folders, F.mtime < fs.clock)
    (hpair : List.Pairwise (fun F G => F.fid ≠ G.fid) folders) :
    (processArchiving cfg today folders
      (processArchiving cfg today folders fs []).fs []).fs =
      (processArchiving cfg today folders fs []).fs ∧
    (∀ F ∈ folders, SkipOrEmpty cfg (fmtYM (lastMonth today)) F
      (processArchiving cfg today folders fs []).fs) := by
  have harch : processArchiving cfg today folders fs [] =
      processFolders cfg (fmtYM (lastMonth today)) (fs.mkdir cfg.destDir) folders [] := by
    unfold processArchiving
    rw [hdry]
    simp
  have hclk1 : ∀ F ∈ folders, F.mtime < (fs.mkdir cfg.destDir).clock := by
    intro F hF
    rw [mkdir_clock]
    exact hclk F hF
  obtain ⟨iclk, iother, istab, idirs⟩ :=
    processFolders_nofail cfg (fmtYM (lastMonth today)) hdry folders
      (fs.mkdir cfg.destDir) hclk1 hpair
  rw [harch]
  refine ⟨?_, istab⟩
  have hdd : (processFolders cfg (fmtYM (lastMonth today)) (fs.mkdir cfg.destDir)
      folders []).fs.dirs.contains cfg.destDir = true := by
    rw [idirs]
    exact mkdir_contains fs cfg.destDir
  have heq2 : processArchiving cfg today folders
      (processFolders cfg (fmtYM (lastMonth today)) (fs.mkdir cfg.destDir) folders []).fs [] =
      processFolders cfg (fmtYM (lastMonth today))
        (processFolders cfg (fmtYM (lastMonth today)) (fs.mkdir cfg.destDir) folders []).fs
        folders [] := by
    unfold processArchiving
    rw [hdry]
    simp [mkdir_of_contains _ _ hdd]
  rw [heq2]
  exact processFolders_of_skipAll cfg (fmtYM (lastMonth today)) folders _ [] istab

theorem c9_idempotent_witness :
    (processArchiving ⟨1, "dest", false⟩ (2023, 3)
      [⟨"2023", "01", 5, [⟨"2023/01/a.jpg", 7⟩]⟩]
      (processArchiving ⟨1, "dest", false⟩ (2023, 3)
        [⟨"2023", "01", 5, [⟨"2023/01/a.jpg", 7⟩]⟩] ⟨[], [], [], [], 10⟩ []).fs []).fs =
      (processArchiving ⟨1, "dest", false⟩ (2023, 3)
        [⟨"2023", "01", 5, [⟨"2023/01/a.jpg", 7⟩]⟩] ⟨[], [], [], [], 10⟩ []).fs ∧
    (∀ F ∈ [(⟨"2023", "01", 5, [⟨"2023/01/a.jpg", 7⟩]⟩ : Folder)],
      SkipOrEmpty ⟨1, "dest", false⟩ (fmtYM (lastMonth (2023, 3))) F
        (processArchiving ⟨1, "dest", false⟩ (2023, 3)
          [⟨"2023", "01", 5, [⟨"2023/01/a.jpg", 7⟩]⟩] ⟨[], [], [], [], 10⟩ []).fs) :=
  c9_idempotent ⟨1, "dest", false⟩ (2023, 3) [⟨"2023", "01", 5, [⟨"2023/01/a.jpg", 7⟩]⟩]
    ⟨[], [], [], [], 10⟩ rfl (by decide) (by simp)

end Glacier
